import Mathlib

/-!
# mqtt-bench: run engine and aggregation

A shallow embedding of `src/main.go` and `src/client.go`:

* `F64`: the `float64` values the program computes with (IEEE 754 binary64,
  round to nearest even), as far as the program uses them: comparison,
  `+`, `-`, `*`, `/`, square root and the conversion from `int64`;
* `RunResults`, `TotalResults`, `Message`, `Client`: the records of `main.go`;
* `calculateTotalResults`: the aggregator of `main.go`;
* `genMessages`, the result loop of `RunPublisher` and the publisher pipeline
  (generator, the runs of the publish loop, one per connection, and the
  coordinator, joined by unbuffered channels) of `client.go`;
* the goroutines of `main` and `RunSubscriber` around the channels `resCh`
  and `done` and the wait group.

The four batch functions of the statistics package the program imports are a
parameter (`StatsLib`) of everything that calls them; `specStats` has them as
the spec words them, for the concrete runs.
-/

namespace MqttBench

/-! ## Machine integers -/

/-- Two's complement wrap-around of an integer to the range of `int64`. -/
def wrap64 (x : ℤ) : ℤ := (x + 2 ^ 63) % 2 ^ 64 - 2 ^ 63

/-- The values of `int64`. -/
def inInt64 (x : ℤ) : Prop := -(2 ^ 63) ≤ x ∧ x < 2 ^ 63

instance (x : ℤ) : Decidable (inInt64 x) := by
  unfold inInt64; infer_instance

/-! ## float64

A finite nonzero `float64` is an integer multiple of `2 ^ (-1074)`, the
smallest subnormal; `fin k` is the value `k * 2 ^ (-1074)`. Zero and infinity
carry their sign, and all NaNs are one value. -/

/-- The values of `float64`. -/
inductive F64 where
  | nan : F64
  | inf (neg : Bool) : F64
  | zero (neg : Bool) : F64
  | fin (k : ℤ) : F64
  deriving DecidableEq, Repr

namespace F64

/-- Number of `2 ^ (-1074)` units in `1.0`. -/
@[irreducible] def one : ℕ := 2 ^ 1074

/-- First unit count that is no longer finite: `2 ^ 1024` in units. -/
@[irreducible] def overflow : ℕ := 2 ^ 2098

/-- Index of the highest set bit, `⌊log₂ q⌋`, of `1 ≤ q < 2 ^ 8192` (and a
lower bound of it above), by binary search on the exponent. -/
@[irreducible] def bitLog (q : ℕ) : ℕ :=
  [4096, 2048, 1024, 512, 256, 128, 64, 32, 16, 8, 4, 2, 1].foldl
    (fun acc b => if 2 ^ (acc + b) ≤ q then acc + b else acc) 0

/-- Round the positive rational `n / d`, counted in units of `2 ^ (-1074)`,
to the nearest value with a 53-bit significand, ties to even, and attach the
sign. Below `2 ^ 53` units the grid is the integers (subnormals and the first
binade); above, it is the multiples of `2 ^ s` where `s` is the number of bits
in excess of 53. -/
def roundUnits (neg : Bool) (n d : ℕ) : F64 :=
  let s := bitLog (n / d) - 52
  let D := d * 2 ^ s
  let m := n / D
  let r := n % D
  let m1 := if 2 * r > D ∨ (2 * r = D ∧ m % 2 = 1) then m + 1 else m
  let k := m1 * 2 ^ s
  if k = 0 then zero neg
  else if overflow ≤ k then inf neg
  else fin (if neg then -(k : ℤ) else (k : ℤ))

/-- Conversion `float64(x)` of an integer. -/
def ofInt (x : ℤ) : F64 :=
  if x = 0 then zero false else roundUnits (decide (x < 0)) (x.natAbs * one) 1

/-- Negation. -/
def neg : F64 → F64
  | nan => nan
  | inf s => inf (!s)
  | zero s => zero (!s)
  | fin k => fin (-k)

/-- Addition, `x + y`. -/
def add : F64 → F64 → F64
  | nan, _ => nan
  | _, nan => nan
  | inf s, inf t => if s = t then inf s else nan
  | inf s, _ => inf s
  | _, inf t => inf t
  | zero s, zero t => zero (s && t)
  | zero _, fin k => fin k
  | fin k, zero _ => fin k
  | fin a, fin b =>
    if a + b = 0 then zero false
    else roundUnits (decide (a + b < 0)) (a + b).natAbs 1

/-- Subtraction, `x - y`. -/
def sub (x y : F64) : F64 := add x (neg y)

/-- Sign bit of a value (false for NaN). -/
def signBit : F64 → Bool
  | nan => false
  | inf s => s
  | zero s => s
  | fin k => decide (k < 0)

/-- Multiplication, `x * y`. -/
def mul : F64 → F64 → F64
  | nan, _ => nan
  | _, nan => nan
  | inf _, zero _ => nan
  | zero _, inf _ => nan
  | inf s, y => inf (xor s (signBit y))
  | x, inf t => inf (xor (signBit x) t)
  | zero s, y => zero (xor s (signBit y))
  | x, zero t => zero (xor (signBit x) t)
  | fin a, fin b =>
    roundUnits (xor (decide (a < 0)) (decide (b < 0))) (a.natAbs * b.natAbs) one

/-- Division, `x / y`. -/
def div : F64 → F64 → F64
  | nan, _ => nan
  | _, nan => nan
  | inf _, inf _ => nan
  | zero _, zero _ => nan
  | inf s, y => inf (xor s (signBit y))
  | x, inf t => zero (xor (signBit x) t)
  | zero s, y => zero (xor s (signBit y))
  | x, zero t => inf (xor (signBit x) t)
  | fin a, fin b =>
    roundUnits (xor (decide (a < 0)) (decide (b < 0))) (a.natAbs * one) b.natAbs

/-- Newton iteration for the integer square root, from a start above it. -/
def isqrtIter : ℕ → ℕ → ℕ → ℕ
  | 0, _, x => x
  | fuel + 1, n, x =>
    let y := (x + n / x) / 2
    if y < x then isqrtIter fuel n y else x

/-- Integer square root, `⌊√n⌋`. -/
def isqrt (n : ℕ) : ℕ :=
  if n = 0 then 0 else isqrtIter (bitLog n + 2) n (2 ^ (bitLog n / 2 + 1))

/-- Square root, `math.Sqrt`. -/
def sqrt : F64 → F64
  | nan => nan
  | inf s => if s then nan else inf false
  | zero s => zero s
  | fin k =>
    if k < 0 then nan
    else
      let N := k.natAbs * one
      let r0 := isqrt N
      let s := bitLog r0 - 52
      let m := r0 / 2 ^ s
      let h := (2 * m + 1) * 2 ^ (s - 1)
      let m1 := if N > h * h ∨ (N = h * h ∧ m % 2 = 1) then m + 1 else m
      fin ((m1 * 2 ^ s : ℕ) : ℤ)

/-- Class of a value on the extended line: `-1` for `-Inf`, `1` for `+Inf`,
`0` otherwise. -/
def cls : F64 → ℤ
  | inf true => -1
  | inf false => 1
  | _ => 0

/-- Position of a finite value in units (`0` for both zeros). -/
def units : F64 → ℤ
  | fin k => k
  | _ => 0

/-- Whether the value is NaN. -/
def isNaN : F64 → Bool
  | nan => true
  | _ => false

/-- The comparison `x < y`: false as soon as one side is NaN. -/
def lt (x y : F64) : Bool :=
  !x.isNaN && !y.isNaN &&
    (decide (cls x < cls y) || (decide (cls x = cls y) && decide (units x < units y)))

/-- The comparison `x > y`. -/
def gt (x y : F64) : Bool := lt y x

/-- The comparison `x <= y`: false as soon as one side is NaN. -/
def le (x y : F64) : Bool :=
  !x.isNaN && !y.isNaN &&
    (decide (cls x < cls y) || (decide (cls x = cls y) && decide (units x ≤ units y)))

/-- The comparison `x == y` of the language: NaN differs from everything, the
two zeros are equal. -/
def eqv (x y : F64) : Bool :=
  !x.isNaN && !y.isNaN && decide (cls x = cls y) && decide (units x = units y)

/-- A value of the model that is a `float64`: a finite one is nonzero and is
its own rounding. -/
def isF64 : F64 → Prop
  | fin k => k ≠ 0 ∧ roundUnits (decide (k < 0)) k.natAbs 1 = fin k
  | _ => True

instance (x : F64) : Decidable (isF64 x) := by
  cases x <;> unfold isF64 <;> infer_instance

end F64

/-! ## Time -/

/-- A `time.Time`, as nanoseconds since the zero time; `0` is the zero value,
an unset timestamp. -/
abbrev Time := ℤ

/-- A `time.Duration`: a count of nanoseconds in an `int64`. -/
abbrev Duration := ℤ

/-- The method `Time.Sub`: the difference `t - u`, saturated at the largest
and the smallest `Duration`. -/
def Sub (t u : Time) : Duration := max (-(2 ^ 63)) (min (t - u) (2 ^ 63 - 1))

/-- The method `Duration.Seconds`:
`float64(d / Second) + float64(d % Second) / 1e9`. -/
def Seconds (d : Duration) : F64 :=
  F64.add (F64.ofInt (d.tdiv 1000000000))
    (F64.div (F64.ofInt (d.tmod 1000000000)) (F64.ofInt 1000000000))

/-! ## The records of `main.go` -/

/-- The payload of a message; `Payload` is the `interface{}` field, `none`
when nil, else the byte slice stored in it. -/
structure MessagePayload where
  ID : String
  Sent : Time
  Payload : Option (List (Fin 256))
  deriving DecidableEq, Repr

/-- A message on its way through the pipeline. -/
structure Message where
  ID : String
  Topic : String
  QoS : Fin 256
  Payload : MessagePayload
  Sent : Time
  Delivered : Time
  DeliveredToSub : Time
  Error : Bool
  deriving DecidableEq, Repr

/-- The results of a single client. -/
structure RunResults where
  ID : String
  Successes : ℤ
  Failures : ℤ
  RunTime : F64
  MsgTimeMin : F64
  MsgTimeMax : F64
  MsgTimeMean : F64
  MsgTimeStd : F64
  MsgDelTimeMin : F64
  MsgDelTimeMax : F64
  MsgDelTimeMean : F64
  MsgDelTimeStd : F64
  MsgsPerSec : F64
  deriving DecidableEq, Repr

/-- The results of all clients. -/
structure TotalResults where
  Ratio : F64
  Successes : ℤ
  Failures : ℤ
  TotalRunTime : F64
  AvgRunTime : F64
  MsgTimeMin : F64
  MsgTimeMax : F64
  MsgDelTimeMin : F64
  MsgDelTimeMax : F64
  MsgTimeMeanAvg : F64
  MsgTimeMeanStd : F64
  MsgDelTimeMeanAvg : F64
  MsgDelTimeMeanStd : F64
  TotalMsgsPerSec : F64
  AvgMsgsPerSec : F64
  deriving DecidableEq, Repr

/-- The map `SubTimes` from a client id to its delivery samples, read as the
program reads it: a key that is absent gives the nil slice. -/
abbrev SubTimes := String → List F64

/-- The client of `client.go`. -/
structure Client where
  ID : String
  BrokerURL : String
  BrokerUser : String
  BrokerPass : String
  MsgTopic : String
  MsgSize : ℤ
  MsgCount : ℤ
  MsgQoS : Fin 256
  Quiet : Bool
  deriving DecidableEq, Repr

/-- The zero value of `RunResults`, what `new(RunResults)` points to. -/
def RunResults.new : RunResults :=
  { ID := "", Successes := 0, Failures := 0, RunTime := .zero false,
    MsgTimeMin := .zero false, MsgTimeMax := .zero false, MsgTimeMean := .zero false,
    MsgTimeStd := .zero false, MsgDelTimeMin := .zero false, MsgDelTimeMax := .zero false,
    MsgDelTimeMean := .zero false, MsgDelTimeStd := .zero false, MsgsPerSec := .zero false }

/-- The zero value of `TotalResults`, what `new(TotalResults)` points to. -/
def TotalResults.new : TotalResults :=
  { Ratio := .zero false, Successes := 0, Failures := 0, TotalRunTime := .zero false,
    AvgRunTime := .zero false, MsgTimeMin := .zero false, MsgTimeMax := .zero false,
    MsgDelTimeMin := .zero false, MsgDelTimeMax := .zero false,
    MsgTimeMeanAvg := .zero false, MsgTimeMeanStd := .zero false,
    MsgDelTimeMeanAvg := .zero false, MsgDelTimeMeanStd := .zero false,
    TotalMsgsPerSec := .zero false, AvgMsgsPerSec := .zero false }

/-! ## The statistics package -/

/-- The four batch functions of the imported statistics package that the
program calls, each from a slice of `float64` to a `float64`. Their code is
not part of the repository; the program is embedded over any four such
functions. -/
structure StatsLib where
  StatsMin : List F64 → F64
  StatsMax : List F64 → F64
  StatsMean : List F64 → F64
  StatsSampleStandardDeviation : List F64 → F64

/-! ## The aggregator, `calculateTotalResults` of `main.go` -/

/-- The variables of the loop of `calculateTotalResults`: the totals and the
five slices filled index by index. -/
structure AggState where
  totals : TotalResults
  msgTimeMeans : List F64
  msgTimeMeansDelivered : List F64
  msgsPerSecs : List F64
  runTimes : List F64
  bws : List F64
  results : List RunResults
  deriving DecidableEq

/-- One iteration of the loop over `results` (lines 202-240): the delivery
statistics of the client are computed from its samples and written into its
record, then the totals and the slices are updated. `results` collects the
records as the iteration leaves them. -/
def aggStep (lib : StatsLib) (subTimes : SubTimes) (st : AggState) (res : RunResults) :
    AggState :=
  let times := subTimes res.ID
  let subMin := lib.StatsMin times
  let subMax := lib.StatsMax times
  let subMean := lib.StatsMean times
  let subStd := lib.StatsSampleStandardDeviation times
  let res := { res with MsgDelTimeMin := subMin, MsgDelTimeMax := subMax,
                        MsgDelTimeMean := subMean, MsgDelTimeStd := subStd }
  let t := st.totals
  let t := { t with Successes := wrap64 (t.Successes + res.Successes) }
  let t := { t with Failures := wrap64 (t.Failures + res.Failures) }
  let t := { t with TotalMsgsPerSec := F64.add t.TotalMsgsPerSec res.MsgsPerSec }
  let t :=
    if F64.lt res.MsgTimeMin t.MsgTimeMin then { t with MsgTimeMin := res.MsgTimeMin } else t
  let t :=
    if F64.gt res.MsgTimeMax t.MsgTimeMax then { t with MsgTimeMax := res.MsgTimeMax } else t
  let t := if F64.lt subMin t.MsgDelTimeMin then { t with MsgDelTimeMin := subMin } else t
  let t := if F64.gt subMax t.MsgDelTimeMax then { t with MsgDelTimeMax := subMax } else t
  { totals := t,
    msgTimeMeansDelivered := st.msgTimeMeansDelivered ++ [subMean],
    msgTimeMeans := st.msgTimeMeans ++ [res.MsgTimeMean],
    msgsPerSecs := st.msgsPerSecs ++ [res.MsgsPerSec],
    runTimes := st.runTimes ++ [res.RunTime],
    bws := st.bws ++ [res.MsgsPerSec],
    results := st.results ++ [res] }

/-- The state before the loop (lines 192-201): zero totals with the total
run time set and `MsgTimeMin` taken from the first record. -/
def aggInit (first : RunResults) (totalTime : Duration) : AggState :=
  { totals := { TotalResults.new with
                  TotalRunTime := Seconds totalTime, MsgTimeMin := first.MsgTimeMin },
    msgTimeMeans := [], msgTimeMeansDelivered := [], msgsPerSecs := [],
    runTimes := [], bws := [], results := [] }

/-- The lines after the loop (241-247): the ratio and the means and standard
deviations over the slices. -/
def aggFinish (lib : StatsLib) (st : AggState) : TotalResults :=
  let t := st.totals
  let ratio :=
    F64.div (F64.ofInt t.Successes) (F64.ofInt (wrap64 (t.Successes + t.Failures)))
  let t := { t with Ratio := ratio }
  let t := { t with AvgMsgsPerSec := lib.StatsMean st.msgsPerSecs }
  let t := { t with AvgRunTime := lib.StatsMean st.runTimes }
  let t := { t with MsgDelTimeMeanAvg := lib.StatsMean st.msgTimeMeansDelivered }
  let delStd := lib.StatsSampleStandardDeviation st.msgTimeMeansDelivered
  let t := { t with MsgDelTimeMeanStd := delStd }
  let t := { t with MsgTimeMeanAvg := lib.StatsMean st.msgTimeMeans }
  let t := { t with MsgTimeMeanStd := lib.StatsSampleStandardDeviation st.msgTimeMeans }
  t

/-- The function `calculateTotalResults`. The slice holds pointers and the
loop writes through them, so the result is the pair of the returned totals
(`none` for the nil pointer) and the records as the call leaves them. The
pointers are taken as `main` fills them in: none is nil, and the records are
read one after the other. -/
def calculateTotalResults (lib : StatsLib) (results : List RunResults)
    (totalTime : Duration) (subTimes : SubTimes) :
    Option TotalResults × List RunResults :=
  match results with
  | [] => (none, [])
  | first :: _ =>
    let st := results.foldl (aggStep lib subTimes) (aggInit first totalTime)
    (some (aggFinish lib st), st.results)

/-! ## The generator, `genMessages` of `client.go` -/

/-- What a goroutine of the pipeline sends downstream: a message on its
message channel, or `true` on its done channel. -/
inductive Signal where
  | msg (m : Message) : Signal
  | done : Signal
  deriving DecidableEq, Repr

/-- The call `make([]byte, n)`: `n` zero bytes. It panics (`none`) for a
negative `n` and for an `n` above `maxAlloc`, the largest length the runtime
allocates: a limit of the platform the program runs on (`2 ^ 48` bytes on
64-bit Linux), and at most the memory there is. -/
def makeBytes (maxAlloc : ℕ) (n : ℤ) : Option (List (Fin 256)) :=
  if n < 0 ∨ (maxAlloc : ℤ) < n then none else some (List.replicate n.toNat 0)

/-- The message built in the loop body of `genMessages` (lines 87-92): topic,
QoS and payload are set, every other field has its zero value. -/
def newMessage (c : Client) (payload : List (Fin 256)) : Message :=
  { ID := "", Topic := c.MsgTopic, QoS := c.MsgQoS,
    Payload := { ID := "", Sent := 0, Payload := some payload },
    Sent := 0, Delivered := 0, DeliveredToSub := 0, Error := false }

/-- The loop of `genMessages` with `n` iterations to go, then the send on
`done`: the sequence of sends, `none` when building a payload panics (the
payload is built before the message is sent, so a panic comes before the
first send). -/
def genLoop (maxAlloc : ℕ) (c : Client) : ℕ → Option (List Signal)
  | 0 => some [Signal.done]
  | n + 1 =>
    match makeBytes maxAlloc c.MsgSize with
    | none => none
    | some payload =>
      match genLoop maxAlloc c n with
      | none => none
      | some rest => some (Signal.msg (newMessage c payload) :: rest)

/-- The function `genMessages`: the sends it performs on `ch` and on `done`,
in order. The loop `for i := 0; i < c.MsgCount; i++` runs `MsgCount` times,
not at all for a count below one. -/
def genMessages (maxAlloc : ℕ) (c : Client) : Option (List Signal) :=
  genLoop maxAlloc c c.MsgCount.toNat

/-! ## The coordinator, `RunPublisher` of `client.go` -/

/-- The variables of the loop of `RunPublisher`: `runResults` and `times`. -/
structure PubState where
  runResults : RunResults
  times : List F64
  deriving DecidableEq, Repr

/-- The state before the loop: `new(RunResults)` and no time. -/
def PubState.init : PubState := { runResults := RunResults.new, times := [] }

/-- The latency recorded for a published message (line 56):
`float64(m.Delivered.Sub(m.Sent).Nanoseconds() / 1000)`, whole microseconds. -/
def latency (m : Message) : F64 := F64.ofInt ((Sub m.Delivered m.Sent).tdiv 1000)

/-- The case `m := <-pubMsgs` (lines 47-57): a failure is counted, or a
success is counted, the id taken over and the latency appended. -/
def onResult (st : PubState) (m : Message) : PubState :=
  if m.Error then
    { st with runResults :=
        { st.runResults with Failures := wrap64 (st.runResults.Failures + 1) } }
  else
    { runResults :=
        { st.runResults with Successes := wrap64 (st.runResults.Successes + 1), ID := m.ID },
      times := st.times ++ [latency m] }

/-- The case `<-donePub` (lines 58-66): the statistics of the recorded times,
the run time and the rate; `duration` is the time since the start. -/
def onDone (lib : StatsLib) (st : PubState) (duration : Duration) : RunResults :=
  { st.runResults with
    MsgTimeMin := lib.StatsMin st.times
    MsgTimeMax := lib.StatsMax st.times
    MsgTimeMean := lib.StatsMean st.times
    MsgTimeStd := lib.StatsSampleStandardDeviation st.times
    RunTime := Seconds duration
    MsgsPerSec := F64.div (F64.ofInt st.runResults.Successes) (Seconds duration) }

/-- The loop of `RunPublisher` over what its two channels hand it, in the
order the `select` takes it: the results reported on `res` at the done
signal, `none` when the channels give nothing more before it (the loop then
blocks for good). -/
def RunPublisher (lib : StatsLib) (duration : Duration) :
    PubState → List Signal → Option RunResults
  | _, [] => none
  | st, Signal.msg m :: rest => RunPublisher lib duration (onResult st m) rest
  | st, Signal.done :: _ => some (onDone lib st duration)

/-! ## The publish loop, `pubMessages` of `client.go`, and the pipeline -/

/-- What one call of publish-and-wait brings: the clock before the call,
whether the token carries an error, the clock after the call. -/
structure PublishOutcome where
  sent : Time
  failed : Bool
  delivered : Time
  deriving DecidableEq, Repr

/-- The case `m := <-in` of the publish loop (lines 161-176): the message is
stamped with the send time and the client id, published, and marked failed or
stamped with the delivery time. -/
def publish (clientID : String) (m : Message) (o : PublishOutcome) : Message :=
  let m := { m with Sent := o.sent, ID := clientID,
                    Payload := { m.Payload with ID := clientID, Sent := o.sent } }
  if o.failed then { m with Error := true }
  else { m with Delivered := o.delivered, Error := false }

/-- Where one run of the publish loop stands: at its `select`, holding a
message it has taken (in the publish call, or about to send it on `out`),
about to send on `donePub`, or returned. -/
inductive PubPc where
  | idle : PubPc
  | holding (m : Message) : PubPc
  | signalling : PubPc
  | finished : PubPc
  deriving DecidableEq, Repr

/-- Where `RunPublisher` stands: in its loop, or returned after reporting. -/
inductive CoordPc where
  | running (st : PubState) : CoordPc
  | reported (r : RunResults) : CoordPc
  deriving DecidableEq, Repr

/-- The number of results counted in a report, `Successes + Failures`; `none`
as long as nothing is reported. -/
def CoordPc.counted : CoordPc → Option ℤ
  | .running _ => none
  | .reported r => some (r.Successes + r.Failures)

/-- The goroutines of one publisher: the sends the generator has still to
perform, the runs of the publish loop, and the coordinator. The publish loop
is the body of the connect handler (lines 154-193) that `pubMessages` hands
to the protocol client together with `SetAutoReconnect(true)`: there is one
run of the loop for each time the client has connected, none before the
first connection. All four channels are unbuffered, so a send and its
receive are one step. -/
structure Pipeline where
  gen : List Signal
  loops : List PubPc
  coord : CoordPc
  deriving DecidableEq, Repr

/-- The pipeline as `RunPublisher` starts it: the generator before its first
send (no send at all if building the payload panics), no run of the publish
loop yet, the coordinator with empty results. -/
def Pipeline.start (maxAlloc : ℕ) (c : Client) : Pipeline :=
  { gen := (genMessages maxAlloc c).getD [], loops := [], coord := .running PubState.init }

/-- What moves next in the pipeline: the protocol client has connected, for
the first time or again after a lost connection, and calls the connect
handler, which starts a run of the publish loop; or the `i`-th run of the
loop takes its next step. -/
inductive Move where
  | connected : Move
  | loop (i : ℕ) : Move
  deriving DecidableEq, Repr

/-- The next step of the `i`-th run of the publish loop; `o` and `d` are what
the broker and the clock bring if the step asks for them. At its `select` the
run takes the generator's next send, a message (which it publishes) or the
done signal; holding a processed message it hands it to the coordinator;
after the done signal it hands its own done signal to the coordinator, which
reports. `none` when the run cannot move: it waits for a partner, has
returned, or does not exist. -/
def Pipeline.loopStep (lib : StatsLib) (clientID : String) (o : PublishOutcome)
    (d : Duration) (s : Pipeline) (i : ℕ) : Option Pipeline :=
  match s.loops[i]?, s.gen, s.coord with
  | some .idle, Signal.msg m :: g, _ =>
    some { s with gen := g, loops := s.loops.set i (.holding (publish clientID m o)) }
  | some .idle, Signal.done :: g, _ =>
    some { s with gen := g, loops := s.loops.set i .signalling }
  | some (.holding m), _, .running st =>
    some { s with loops := s.loops.set i .idle, coord := .running (onResult st m) }
  | some .signalling, _, .running st =>
    some { s with loops := s.loops.set i .finished, coord := .reported (onDone lib st d) }
  | _, _, _ => none

/-- One step of the pipeline. -/
def Pipeline.step (lib : StatsLib) (clientID : String) (mv : Move) (o : PublishOutcome)
    (d : Duration) (s : Pipeline) : Option Pipeline :=
  match mv with
  | .connected => some { s with loops := s.loops ++ [.idle] }
  | .loop i => Pipeline.loopStep lib clientID o d s i

/-- What happens at one point of a run: who moves, and what the broker and
the clock bring then. -/
structure Event where
  move : Move
  outcome : PublishOutcome
  duration : Duration
  deriving DecidableEq, Repr

/-- The pipeline after the events of a run, from `s`; an event whose move is
not possible leaves the pipeline as it is. -/
def Pipeline.run (lib : StatsLib) (clientID : String) : List Event → Pipeline → Pipeline
  | [], s => s
  | e :: es, s =>
    match Pipeline.step lib clientID e.move e.outcome e.duration s with
    | none => Pipeline.run lib clientID es s
    | some s' => Pipeline.run lib clientID es s'

/-- How often the client connects in a run. -/
def connects (es : List Event) : ℕ := (es.filter fun e => e.move = Move.connected).length

/-! ## The orchestrator, `main` of `main.go`, and `RunSubscriber` -/

/-- The two channels of `main`. -/
inductive Chan where
  | resCh : Chan
  | done : Chan
  deriving DecidableEq, Repr

/-- What a goroutine of the run does next, as far as the other goroutines
can tell: a send or a receive on a channel of `main` (both unbuffered, so
each waits for its partner), or a step of its own. -/
inductive Op where
  | send (ch : Chan) : Op
  | recv (ch : Chan) : Op
  | subscribe : Op
  | wgDone : Op
  | aggregate : Op
  deriving DecidableEq, Repr

/-- What `main` does once the clients are started (lines 174-181): it
receives one result per publisher from `resCh`, sends `true` on `done`, and
calls `calculateTotalResults`. It calls neither `wg.Add` nor `wg.Wait`. -/
def mainProgram (pubs : ℕ) : List Op :=
  List.replicate pubs (Op.recv Chan.resCh) ++ [Op.send Chan.done, Op.aggregate]

/-- What `RunSubscriber` does as `client.go` declares it (lines 76-83, with
the wait group and the sample map as parameters): it subscribes, which
returns once the subscription is made, and on return runs the deferred
`wg.Done()`. It receives from no channel. -/
def RunSubscriber : List Op := [Op.subscribe, Op.wgDone]

/-- What `RunPublisher` does towards `main`: at the end it sends its results
on `res` (line 69). -/
def publisherProgram : List Op := [Op.send Chan.resCh]

/-- The goroutines of a run: what `main` and each client have still to do,
the counter of the wait group `wg`, and whether a goroutine has panicked,
which ends the process. -/
structure Orchestra where
  main : List Op
  clients : List (List Op)
  wg : ℕ
  panicked : Bool
  deriving DecidableEq, Repr

/-- The run as `main` reaches its collecting loop: `subs` subscribers and
`pubs` publishers started, the counter of `wg` at zero, where `var wg` puts
it and no `wg.Add` ever raises it. -/
def Orchestra.start (pubs subs : ℕ) : Orchestra :=
  { main := mainProgram pubs,
    clients := List.replicate subs RunSubscriber ++ List.replicate pubs publisherProgram,
    wg := 0, panicked := false }

/-- The step of client `i`, if it can take one: a step of its own, or a send
or receive that meets the receive or send `main` is at, on the same channel.
`wg.Done()` lowers the counter of the wait group and panics when that makes
it negative. After a panic nothing moves. -/
def Orchestra.clientStep (s : Orchestra) (i : ℕ) : Option Orchestra :=
  if s.panicked then none
  else
    match s.clients[i]?, s.main with
    | some (Op.subscribe :: p), _ => some { s with clients := s.clients.set i p }
    | some (Op.wgDone :: p), _ =>
      if s.wg = 0 then some { s with panicked := true }
      else some { s with clients := s.clients.set i p, wg := s.wg - 1 }
    | some (Op.send ch :: p), Op.recv ch' :: rest =>
      if ch = ch' then some { s with main := rest, clients := s.clients.set i p } else none
    | some (Op.recv ch :: p), Op.send ch' :: rest =>
      if ch = ch' then some { s with main := rest, clients := s.clients.set i p } else none
    | _, _ => none

/-- The step `main` can take on its own: the call of `calculateTotalResults`. -/
def Orchestra.mainStep (s : Orchestra) : Option Orchestra :=
  if s.panicked then none
  else
    match s.main with
    | Op.aggregate :: rest => some { s with main := rest }
    | _ => none

/-- All the states one step away. -/
def Orchestra.next (s : Orchestra) : List Orchestra :=
  s.mainStep.toList ++ (List.range s.clients.length).filterMap s.clientStep

/-- All the states at most `n` steps away. -/
def Orchestra.within : ℕ → Orchestra → List Orchestra
  | 0, s => [s]
  | n + 1, s => s :: s.next.flatMap (Orchestra.within n)

/-- The states a run can reach. -/
inductive Orchestra.Reachable (s₀ : Orchestra) : Orchestra → Prop where
  | start : Orchestra.Reachable s₀ s₀
  | step {s s' : Orchestra} : Orchestra.Reachable s₀ s → s' ∈ s.next →
      Orchestra.Reachable s₀ s'

/-! ## The statistics functions, from the spec -/

/-- Modelled from the spec: the minimum of a client's samples (the statistics
package is not part of the repository); NaN when there is no sample. -/
def specMin : List F64 → F64
  | [] => .nan
  | x :: xs => xs.foldl (fun m v => if F64.lt v m then v else m) x

/-- Modelled from the spec: the maximum of a client's samples (the statistics
package is not part of the repository); NaN when there is no sample. -/
def specMax : List F64 → F64
  | [] => .nan
  | x :: xs => xs.foldl (fun m v => if F64.gt v m then v else m) x

/-- Modelled from the spec: the sum of the samples, added left to right from
zero (the statistics package is not part of the repository). -/
def specSum (xs : List F64) : F64 := xs.foldl F64.add (.zero false)

/-- Modelled from the spec: the arithmetic mean, the sum over the count (the
statistics package is not part of the repository). -/
def specMean (xs : List F64) : F64 := F64.div (specSum xs) (F64.ofInt xs.length)

/-- Modelled from the spec: the sample standard deviation, the square root of
the sum of squared deviations from the mean over the count less one (the
statistics package is not part of the repository). -/
def specSampleStandardDeviation (xs : List F64) : F64 :=
  let mean := specMean xs
  let ssd := xs.foldl
    (fun acc v => F64.add acc (F64.mul (F64.sub v mean) (F64.sub v mean))) (.zero false)
  F64.sqrt (F64.div ssd (F64.sub (F64.ofInt xs.length) (F64.ofInt 1)))

/-- Modelled from the spec: the statistics package as the spec words it,
minimum, maximum, mean and sample standard deviation of the samples. -/
def specStats : StatsLib :=
  { StatsMin := specMin, StatsMax := specMax, StatsMean := specMean,
    StatsSampleStandardDeviation := specSampleStandardDeviation }

/-! ## Vocabulary of the statements -/

/-- The update `if R v cur { cur = v }` of a running extremum, for the
comparison `R`. -/
def pick (R : F64 → F64 → Bool) (cur v : F64) : F64 := if R v cur then v else cur

/-- A comparison under which a running extremum is an extremum: a strict
order in which every value is either comparable in the usual way or (NaN)
has nothing before it. -/
structure Extremal (R : F64 → F64 → Bool) : Prop where
  irrefl : ∀ x, R x x = false
  trans : ∀ x y z, R x y = true → R y z = true → R x z = true
  weak : ∀ y, (∀ x z, R x y = false → R y z = false → R x z = false) ∨ ∀ v, R v y = false

/-- A client's record as the loop of `calculateTotalResults` leaves it: the
four delivery fields hold the statistics of the client's samples. -/
def withDelivery (lib : StatsLib) (subTimes : SubTimes) (r : RunResults) : RunResults :=
  { r with MsgDelTimeMin := lib.StatsMin (subTimes r.ID),
           MsgDelTimeMax := lib.StatsMax (subTimes r.ID),
           MsgDelTimeMean := lib.StatsMean (subTimes r.ID),
           MsgDelTimeStd := lib.StatsSampleStandardDeviation (subTimes r.ID) }

/-! ## Concrete runs -/

/-- A map without any delivery sample, as the subscribers of `client.go`
leave it. -/
def exNoSamples : SubTimes := fun _ => []

/-- A client with two successes and no failure. -/
def exTwoOk : RunResults := { RunResults.new with ID := "pub-0", Successes := 2 }

/-- A client with no success and two failures. -/
def exTwoFailed : RunResults := { RunResults.new with ID := "pub-1", Failures := 2 }

/-- A client that published nothing. -/
def exIdle : RunResults := { RunResults.new with ID := "pub-0" }

/-- A client whose latency figures are all `-1`. -/
def exNegative : RunResults :=
  { RunResults.new with ID := "pub-0", Successes := 1, MsgTimeMin := F64.ofInt (-1),
                        MsgTimeMax := F64.ofInt (-1), MsgTimeMean := F64.ofInt (-1) }

/-- A client with latencies from 100 to 300 microseconds. -/
def exFast : RunResults :=
  { RunResults.new with ID := "pub-0", Successes := 3, MsgTimeMin := F64.ofInt 100,
                        MsgTimeMax := F64.ofInt 300, MsgTimeMean := F64.ofInt 200 }

/-- A client with latencies from 150 to 900 microseconds. -/
def exSlow : RunResults :=
  { RunResults.new with ID := "pub-1", Successes := 3, MsgTimeMin := F64.ofInt 150,
                        MsgTimeMax := F64.ofInt 900, MsgTimeMean := F64.ofInt 400 }

/-- Delivery samples of `-5` microseconds for the client `pub-0`, none for
the others. -/
def exEarlySamples : SubTimes := fun id => if id = "pub-0" then [F64.ofInt (-5)] else []

/-- Delivery samples of `5` microseconds for the client `pub-0`, none for the
others. -/
def exLateSamples : SubTimes := fun id => if id = "pub-0" then [F64.ofInt 5] else []

/-- A client set up for three messages of two bytes. -/
def exClient : Client :=
  { ID := "0", BrokerURL := "tcp://localhost:1883", BrokerUser := "", BrokerPass := "",
    MsgTopic := "channels/1/messages/test", MsgSize := 2, MsgCount := 3, MsgQoS := 1,
    Quiet := false }

/-- A message published at `sent` and acknowledged `micros` microseconds and
some nanoseconds later. -/
def exPublished (sent : Time) (micros : ℤ) : Message :=
  publish "pub-0" (newMessage exClient [0, 0])
    { sent := sent, failed := false, delivered := sent + micros * 1000 + 7 }

/-- The allocation limit of 64-bit Linux. -/
def exMaxAlloc : ℕ := 2 ^ 48

/-- The client `exClient` asked for payloads of `-1` bytes. -/
def exNegativeSize : Client := { exClient with MsgSize := -1 }

/-- The client `exClient` asked for payloads of `2 ^ 62` bytes. -/
def exHugeSize : Client := { exClient with MsgSize := 2 ^ 62 }

/-- An event with the given move, a publish acknowledged within 100
microseconds and a clock that shows one second since the start. -/
def exEvent (mv : Move) : Event :=
  { move := mv, outcome := { sent := 0, failed := false, delivered := 100000 },
    duration := 1000000000 }

/-- A run without reconnection: the client connects, and the one run of the
publish loop takes eight steps. -/
def exSteady : List Event :=
  (Move.connected :: List.replicate 8 (Move.loop 0)).map exEvent

/-- A run with a reconnection: the client connects and the first run of the
publish loop takes the first message; while its publish call is pending the
connection is lost and made again, and the second run of the loop takes the
two other messages and the done signal and hands them on. -/
def exReconnect : List Event :=
  [Move.connected, Move.loop 0, Move.connected, Move.loop 1, Move.loop 1, Move.loop 1,
    Move.loop 1, Move.loop 1, Move.loop 1].map exEvent

/-- What holds of the pipeline of a client at every step of a run in which
the publish loop is started at most once, for the message count `N`: either
the generator panicked before its first send and nothing is ever counted; or
the coordinator has counted as many results as the generator has sent
messages, less the one the publish loop holds; or the done signal is on its
way and all `N` are counted; or the results are reported with `N` counted. -/
def PipelineInv (N : ℤ) (s : Pipeline) : Prop :=
  (∃ st, s.coord = .running st ∧ s.gen = [] ∧ (s.loops = [] ∨ s.loops = [.idle])) ∨
  (∃ (st : PubState) (ms : List Message),
    s.coord = .running st ∧ s.gen = ms.map Signal.msg ++ [Signal.done] ∧
    0 ≤ st.runResults.Successes ∧ 0 ≤ st.runResults.Failures ∧
    (((s.loops = [] ∨ s.loops = [.idle]) ∧
        st.runResults.Successes + st.runResults.Failures + ms.length = N) ∨
      (∃ m, s.loops = [.holding m] ∧
        st.runResults.Successes + st.runResults.Failures + 1 + ms.length = N))) ∨
  (∃ st, s.coord = .running st ∧ s.gen = [] ∧ s.loops = [.signalling] ∧
    0 ≤ st.runResults.Successes ∧ 0 ≤ st.runResults.Failures ∧
    st.runResults.Successes + st.runResults.Failures = N) ∨
  (∃ r, s.coord = .reported r ∧ s.loops = [.finished] ∧ r.Successes + r.Failures = N)

/-! # Theorems -/

/-! ## Facts about the machine arithmetic -/

theorem wrap64_inInt64 (x : ℤ) : inInt64 (wrap64 x) := by
  unfold inInt64 wrap64; omega

theorem wrap64_of_inInt64 {x : ℤ} (h : inInt64 x) : wrap64 x = x := by
  unfold inInt64 at h; unfold wrap64; omega

theorem wrap64_add_left (a b : ℤ) : wrap64 (wrap64 a + b) = wrap64 (a + b) := by
  unfold wrap64; omega

theorem F64.lt_irrefl (x : F64) : F64.lt x x = false := by
  cases x <;> simp [F64.lt, F64.isNaN]

theorem F64.lt_trans {x y z : F64} (hxy : F64.lt x y = true) (hyz : F64.lt y z = true) :
    F64.lt x z = true := by
  simp only [F64.lt, Bool.and_eq_true, Bool.not_eq_true', Bool.or_eq_true,
    decide_eq_true_eq] at hxy hyz ⊢
  obtain ⟨⟨hx, _⟩, h1⟩ := hxy
  obtain ⟨⟨_, hz⟩, h2⟩ := hyz
  refine ⟨⟨hx, hz⟩, ?_⟩
  omega

theorem F64.lt_nan_right (x : F64) : F64.lt x F64.nan = false := by
  cases x <;> simp [F64.lt, F64.isNaN]

theorem F64.lt_nan_left (x : F64) : F64.lt F64.nan x = false := by
  simp [F64.lt, F64.isNaN]

theorem F64.isNaN_iff (x : F64) : x.isNaN = true ↔ x = F64.nan := by
  cases x <;> simp [F64.isNaN]

/-- Through a middle value that is not NaN, "not below" is transitive. -/
theorem F64.not_lt_trans {x y z : F64} (hy : y.isNaN = false)
    (hxy : F64.lt x y = false) (hyz : F64.lt y z = false) : F64.lt x z = false := by
  cases hx : x.isNaN
  · cases hz : z.isNaN
    · rw [← Bool.not_eq_true] at hxy hyz ⊢
      simp only [F64.lt, hx, hy, hz, Bool.not_false, Bool.and_self, Bool.true_and,
        Bool.or_eq_true, Bool.and_eq_true, decide_eq_true_eq] at hxy hyz ⊢
      omega
    · simp [F64.lt, hz]
  · simp [F64.lt, hx]

/-! ## The running minimum and maximum of the aggregator -/

theorem extremal_lt : Extremal F64.lt where
  irrefl := F64.lt_irrefl
  trans := fun _ _ _ => F64.lt_trans
  weak := by
    intro y
    cases hy : y.isNaN
    · exact Or.inl fun x z => F64.not_lt_trans hy
    · rw [F64.isNaN_iff] at hy
      subst hy
      exact Or.inr F64.lt_nan_right

theorem extremal_gt : Extremal F64.gt where
  irrefl := F64.lt_irrefl
  trans := fun _ _ _ h1 h2 => F64.lt_trans h2 h1
  weak := by
    intro y
    cases hy : y.isNaN
    · exact Or.inl fun x z h1 h2 => F64.not_lt_trans hy h2 h1
    · rw [F64.isNaN_iff] at hy
      subst hy
      exact Or.inr F64.lt_nan_left

theorem pick_pos {R : F64 → F64 → Bool} {cur v : F64} (h : R v cur = true) :
    pick R cur v = v := by
  simp [pick, h]

theorem pick_neg {R : F64 → F64 → Bool} {cur v : F64} (h : R v cur = false) :
    pick R cur v = cur := by
  simp [pick, h]

theorem foldl_pick_mem (R : F64 → F64 → Bool) (xs : List F64) (seed : F64) :
    xs.foldl (pick R) seed = seed ∨ xs.foldl (pick R) seed ∈ xs := by
  induction xs generalizing seed with
  | nil => exact Or.inl rfl
  | cons x xs ih =>
    simp only [List.foldl_cons, List.mem_cons]
    rcases ih (pick R seed x) with h | h
    · rw [h]
      cases hc : R x seed
      · exact Or.inl (pick_neg hc)
      · exact Or.inr (Or.inl (pick_pos hc))
    · exact Or.inr (Or.inr h)

theorem foldl_pick_of_none_before {R : F64 → F64 → Bool} (xs : List F64) (seed : F64)
    (h : ∀ v, R v seed = false) : xs.foldl (pick R) seed = seed := by
  induction xs with
  | nil => rfl
  | cons x xs ih => rw [List.foldl_cons, pick_neg (h x)]; exact ih

theorem foldl_pick_seed {R : F64 → F64 → Bool} (hR : Extremal R) (xs : List F64)
    (seed : F64) : R seed (xs.foldl (pick R) seed) = false := by
  induction xs generalizing seed with
  | nil => exact hR.irrefl seed
  | cons x xs ih =>
    simp only [List.foldl_cons]
    have h := ih (pick R seed x)
    cases hc : R x seed
    · rw [pick_neg hc] at h ⊢
      exact h
    · rw [pick_pos hc] at h ⊢
      by_contra hne
      have h1 : R seed (List.foldl (pick R) x xs) = true := by simpa using hne
      have h2 := hR.trans _ _ _ hc h1
      rw [h] at h2
      cases h2

theorem foldl_pick_bound {R : F64 → F64 → Bool} (hR : Extremal R) (xs : List F64)
    (seed : F64) : ∀ x ∈ xs, R x (xs.foldl (pick R) seed) = false := by
  induction xs generalizing seed with
  | nil => intro x hx; cases hx
  | cons y ys ih =>
    intro x hx
    simp only [List.foldl_cons]
    rcases List.mem_cons.mp hx with rfl | hx
    · have ha := foldl_pick_seed hR ys (pick R seed x)
      cases hc : R x seed
      · rw [pick_neg hc] at ha ⊢
        rcases hR.weak seed with hw | hw
        · exact hw _ _ hc ha
        · rw [foldl_pick_of_none_before ys seed hw]
          exact hw x
      · rw [pick_pos hc] at ha ⊢
        exact ha
    · exact ih _ x hx


theorem F64.lt_notNaN {x y : F64} (h : F64.lt x y = true) :
    x.isNaN = false ∧ y.isNaN = false := by
  simp only [F64.lt, Bool.and_eq_true, Bool.not_eq_true'] at h
  exact h.1

/-- Two values that are not NaN are comparable. -/
theorem F64.le_of_not_lt {x y : F64} (hx : x.isNaN = false) (hy : y.isNaN = false)
    (h : F64.lt x y = false) : F64.le y x = true := by
  rw [← Bool.not_eq_true] at h
  simp only [F64.lt, F64.le, hx, hy, Bool.not_false, Bool.and_self, Bool.true_and,
    Bool.or_eq_true, Bool.and_eq_true, decide_eq_true_eq] at h ⊢
  omega

theorem foldl_pick_notNaN {R : F64 → F64 → Bool}
    (hR : ∀ v cur, R v cur = true → v.isNaN = false) (xs : List F64) (seed : F64)
    (hs : seed.isNaN = false) : (xs.foldl (pick R) seed).isNaN = false := by
  induction xs generalizing seed with
  | nil => exact hs
  | cons x xs ih =>
    rw [List.foldl_cons]
    cases hc : R x seed
    · rw [pick_neg hc]; exact ih seed hs
    · rw [pick_pos hc]; exact ih x (hR x seed hc)

/-- The running minimum from the first element of a list: an element of the
list that none is below, and at most every element when none is NaN. -/
theorem runningMin_spec (x : F64) (xs : List F64) :
    (x :: xs).foldl (pick F64.lt) x ∈ x :: xs ∧
    (∀ v ∈ x :: xs, F64.lt v ((x :: xs).foldl (pick F64.lt) x) = false) ∧
    ((∀ v ∈ x :: xs, v.isNaN = false) →
      ∀ v ∈ x :: xs, F64.le ((x :: xs).foldl (pick F64.lt) x) v = true) := by
  have hmem : (x :: xs).foldl (pick F64.lt) x ∈ x :: xs := by
    rcases foldl_pick_mem F64.lt (x :: xs) x with h | h
    · rw [h]; exact List.mem_cons_self _ _
    · exact h
  have hlow := foldl_pick_bound extremal_lt (x :: xs) x
  refine ⟨hmem, hlow, ?_⟩
  intro hnan v hv
  exact F64.le_of_not_lt (hnan v hv) (hnan _ hmem) (hlow v hv)

/-- The running maximum from zero: zero or an element of the list, at least
zero, with no element above it and every element that is not NaN at most it,
and an element of the list as soon as one is above zero. -/
theorem runningMax_spec (xs : List F64) :
    (xs.foldl (pick F64.gt) (F64.zero false) = F64.zero false ∨
      xs.foldl (pick F64.gt) (F64.zero false) ∈ xs) ∧
    F64.le (F64.zero false) (xs.foldl (pick F64.gt) (F64.zero false)) = true ∧
    (∀ v ∈ xs, F64.gt v (xs.foldl (pick F64.gt) (F64.zero false)) = false) ∧
    (∀ v ∈ xs, v.isNaN = false →
      F64.le v (xs.foldl (pick F64.gt) (F64.zero false)) = true) ∧
    ((∃ v ∈ xs, F64.gt v (F64.zero false) = true) →
      xs.foldl (pick F64.gt) (F64.zero false) ∈ xs) := by
  have hmem := foldl_pick_mem F64.gt xs (F64.zero false)
  have hup := foldl_pick_bound extremal_gt xs (F64.zero false)
  have hseed := foldl_pick_seed extremal_gt xs (F64.zero false)
  have hnn : (xs.foldl (pick F64.gt) (F64.zero false)).isNaN = false :=
    foldl_pick_notNaN (fun v cur h => (F64.lt_notNaN h).2) xs (F64.zero false) rfl
  refine ⟨hmem, ?_, hup, ?_, ?_⟩
  · exact F64.le_of_not_lt hnn rfl hseed
  · intro v hv hvn
    exact F64.le_of_not_lt hnn hvn (hup v hv)
  · rintro ⟨v, hv, hpos⟩
    rcases hmem with hz | hm
    · have hb := hup v hv
      rw [hz, hpos] at hb
      cases hb
    · exact hm

/-! ## The loop of the aggregator, field by field -/

theorem aggStep_Successes (lib : StatsLib) (sub : SubTimes) (st : AggState) (r : RunResults) :
    (aggStep lib sub st r).totals.Successes = wrap64 (st.totals.Successes + r.Successes) := by
  unfold aggStep
  simp only []
  split_ifs <;> rfl

theorem aggStep_Failures (lib : StatsLib) (sub : SubTimes) (st : AggState) (r : RunResults) :
    (aggStep lib sub st r).totals.Failures = wrap64 (st.totals.Failures + r.Failures) := by
  unfold aggStep
  simp only []
  split_ifs <;> rfl

theorem aggStep_MsgTimeMin (lib : StatsLib) (sub : SubTimes) (st : AggState) (r : RunResults) :
    (aggStep lib sub st r).totals.MsgTimeMin = pick F64.lt st.totals.MsgTimeMin r.MsgTimeMin := by
  unfold aggStep pick
  simp only []
  split_ifs <;> rfl

theorem aggStep_MsgTimeMax (lib : StatsLib) (sub : SubTimes) (st : AggState) (r : RunResults) :
    (aggStep lib sub st r).totals.MsgTimeMax = pick F64.gt st.totals.MsgTimeMax r.MsgTimeMax := by
  unfold aggStep pick
  simp only []
  split_ifs <;> rfl

theorem aggStep_MsgDelTimeMin (lib : StatsLib) (sub : SubTimes) (st : AggState)
    (r : RunResults) :
    (aggStep lib sub st r).totals.MsgDelTimeMin =
      pick F64.lt st.totals.MsgDelTimeMin (lib.StatsMin (sub r.ID)) := by
  unfold aggStep pick
  simp only []
  split_ifs <;> rfl

theorem aggStep_MsgDelTimeMax (lib : StatsLib) (sub : SubTimes) (st : AggState)
    (r : RunResults) :
    (aggStep lib sub st r).totals.MsgDelTimeMax =
      pick F64.gt st.totals.MsgDelTimeMax (lib.StatsMax (sub r.ID)) := by
  unfold aggStep pick
  simp only []
  split_ifs <;> rfl

theorem foldl_aggStep_Successes (lib : StatsLib) (sub : SubTimes) (rs : List RunResults)
    (st : AggState) (h : inInt64 st.totals.Successes) :
    (rs.foldl (aggStep lib sub) st).totals.Successes =
      wrap64 (st.totals.Successes + (rs.map (·.Successes)).sum) := by
  induction rs generalizing st with
  | nil => simp [wrap64_of_inInt64 h]
  | cons r rs ih =>
    rw [List.foldl_cons, ih _ (by rw [aggStep_Successes]; exact wrap64_inInt64 _),
      aggStep_Successes, wrap64_add_left, List.map_cons, List.sum_cons, add_assoc]

theorem foldl_aggStep_Failures (lib : StatsLib) (sub : SubTimes) (rs : List RunResults)
    (st : AggState) (h : inInt64 st.totals.Failures) :
    (rs.foldl (aggStep lib sub) st).totals.Failures =
      wrap64 (st.totals.Failures + (rs.map (·.Failures)).sum) := by
  induction rs generalizing st with
  | nil => simp [wrap64_of_inInt64 h]
  | cons r rs ih =>
    rw [List.foldl_cons, ih _ (by rw [aggStep_Failures]; exact wrap64_inInt64 _),
      aggStep_Failures, wrap64_add_left, List.map_cons, List.sum_cons, add_assoc]

theorem foldl_aggStep_MsgTimeMin (lib : StatsLib) (sub : SubTimes) (rs : List RunResults)
    (st : AggState) :
    (rs.foldl (aggStep lib sub) st).totals.MsgTimeMin =
      (rs.map (·.MsgTimeMin)).foldl (pick F64.lt) st.totals.MsgTimeMin := by
  induction rs generalizing st with
  | nil => rfl
  | cons r rs ih => rw [List.foldl_cons, ih, aggStep_MsgTimeMin]; rfl

theorem foldl_aggStep_MsgTimeMax (lib : StatsLib) (sub : SubTimes) (rs : List RunResults)
    (st : AggState) :
    (rs.foldl (aggStep lib sub) st).totals.MsgTimeMax =
      (rs.map (·.MsgTimeMax)).foldl (pick F64.gt) st.totals.MsgTimeMax := by
  induction rs generalizing st with
  | nil => rfl
  | cons r rs ih => rw [List.foldl_cons, ih, aggStep_MsgTimeMax]; rfl

theorem foldl_aggStep_MsgDelTimeMin (lib : StatsLib) (sub : SubTimes) (rs : List RunResults)
    (st : AggState) :
    (rs.foldl (aggStep lib sub) st).totals.MsgDelTimeMin =
      (rs.map fun r => lib.StatsMin (sub r.ID)).foldl (pick F64.lt)
        st.totals.MsgDelTimeMin := by
  induction rs generalizing st with
  | nil => rfl
  | cons r rs ih => rw [List.foldl_cons, ih, aggStep_MsgDelTimeMin]; rfl

theorem foldl_aggStep_MsgDelTimeMax (lib : StatsLib) (sub : SubTimes) (rs : List RunResults)
    (st : AggState) :
    (rs.foldl (aggStep lib sub) st).totals.MsgDelTimeMax =
      (rs.map fun r => lib.StatsMax (sub r.ID)).foldl (pick F64.gt)
        st.totals.MsgDelTimeMax := by
  induction rs generalizing st with
  | nil => rfl
  | cons r rs ih => rw [List.foldl_cons, ih, aggStep_MsgDelTimeMax]; rfl

theorem foldl_aggStep_msgTimeMeans (lib : StatsLib) (sub : SubTimes) (rs : List RunResults)
    (st : AggState) :
    (rs.foldl (aggStep lib sub) st).msgTimeMeans =
      st.msgTimeMeans ++ rs.map (·.MsgTimeMean) := by
  induction rs generalizing st with
  | nil => simp
  | cons r rs ih => rw [List.foldl_cons, ih]; simp [aggStep]

theorem foldl_aggStep_msgTimeMeansDelivered (lib : StatsLib) (sub : SubTimes)
    (rs : List RunResults) (st : AggState) :
    (rs.foldl (aggStep lib sub) st).msgTimeMeansDelivered =
      st.msgTimeMeansDelivered ++ rs.map fun r => lib.StatsMean (sub r.ID) := by
  induction rs generalizing st with
  | nil => simp
  | cons r rs ih => rw [List.foldl_cons, ih]; simp [aggStep]

theorem foldl_aggStep_results (lib : StatsLib) (sub : SubTimes) (rs : List RunResults)
    (st : AggState) :
    (rs.foldl (aggStep lib sub) st).results = st.results ++ rs.map (withDelivery lib sub) := by
  induction rs generalizing st with
  | nil => simp
  | cons r rs ih => rw [List.foldl_cons, ih]; simp [aggStep, withDelivery]

/-! ## The fields of the returned totals -/

theorem aggFinish_Successes (lib : StatsLib) (st : AggState) :
    (aggFinish lib st).Successes = st.totals.Successes := rfl

theorem aggFinish_Failures (lib : StatsLib) (st : AggState) :
    (aggFinish lib st).Failures = st.totals.Failures := rfl

theorem aggFinish_Ratio (lib : StatsLib) (st : AggState) :
    (aggFinish lib st).Ratio =
      F64.div (F64.ofInt st.totals.Successes)
        (F64.ofInt (wrap64 (st.totals.Successes + st.totals.Failures))) := rfl

theorem calculateTotalResults_cons (lib : StatsLib) (first : RunResults)
    (rest : List RunResults) (totalTime : Duration) (subTimes : SubTimes) :
    calculateTotalResults lib (first :: rest) totalTime subTimes =
      (some (aggFinish lib
          ((first :: rest).foldl (aggStep lib subTimes) (aggInit first totalTime))),
        ((first :: rest).foldl (aggStep lib subTimes) (aggInit first totalTime)).results) :=
  rfl

theorem inInt64_zero : inInt64 0 := by
  unfold inInt64; omega

/-! ## C1 to C3: sums, ratio, minimum and maximum of the publish latencies -/

/-- The totals of a non-empty list: the sums and the ratio. -/
theorem calculateTotalResults_counts (lib : StatsLib) (results : List RunResults)
    (totalTime : Duration) (subTimes : SubTimes) (h : results ≠ []) :
    ∃ totals, (calculateTotalResults lib results totalTime subTimes).1 = some totals ∧
      totals.Successes = wrap64 (results.map (·.Successes)).sum ∧
      totals.Failures = wrap64 (results.map (·.Failures)).sum ∧
      totals.Ratio = F64.div (F64.ofInt totals.Successes)
        (F64.ofInt (wrap64 (totals.Successes + totals.Failures))) := by
  cases results with
  | nil => exact absurd rfl h
  | cons first rest =>
    have hS := foldl_aggStep_Successes lib subTimes (first :: rest)
      (aggInit first totalTime) inInt64_zero
    have hF := foldl_aggStep_Failures lib subTimes (first :: rest)
      (aggInit first totalTime) inInt64_zero
    have hS0 : (aggInit first totalTime).totals.Successes = 0 := rfl
    have hF0 : (aggInit first totalTime).totals.Failures = 0 := rfl
    rw [hS0, zero_add] at hS
    rw [hF0, zero_add] at hF
    refine ⟨_, by rw [calculateTotalResults_cons], ?_, ?_, ?_⟩
    · rw [aggFinish_Successes, hS]
    · rw [aggFinish_Failures, hF]
    · rw [aggFinish_Ratio, aggFinish_Successes, aggFinish_Failures]

/-- C1. For every non-empty list of per-client results, `calculateTotalResults`
returns totals whose `Successes` and `Failures` are the sums of the per-client
`Successes` and `Failures`: the sums as `int64` computes them, which are the
exact sums whenever these fit an `int64`. -/
theorem calculateTotalResults_sums (lib : StatsLib) (results : List RunResults)
    (totalTime : Duration) (subTimes : SubTimes) (h : results ≠ []) :
    ∃ totals, (calculateTotalResults lib results totalTime subTimes).1 = some totals ∧
      totals.Successes = wrap64 (results.map (·.Successes)).sum ∧
      totals.Failures = wrap64 (results.map (·.Failures)).sum ∧
      (inInt64 (results.map (·.Successes)).sum →
        totals.Successes = (results.map (·.Successes)).sum) ∧
      (inInt64 (results.map (·.Failures)).sum →
        totals.Failures = (results.map (·.Failures)).sum) := by
  obtain ⟨t, ht, hS, hF, _⟩ :=
    calculateTotalResults_counts lib results totalTime subTimes h
  refine ⟨t, ht, hS, hF, ?_, ?_⟩
  · intro hin
    rw [hS, wrap64_of_inInt64 hin]
  · intro hin
    rw [hF, wrap64_of_inInt64 hin]

/-- The scenario of C1: clients with 2/0 and 0/2 successes/failures, whose
sums fit an `int64`, give the totals 2 and 2. -/
theorem calculateTotalResults_sums_witness :
    [exTwoOk, exTwoFailed] ≠ [] ∧
    inInt64 ([exTwoOk, exTwoFailed].map (·.Successes)).sum ∧
    inInt64 ([exTwoOk, exTwoFailed].map (·.Failures)).sum ∧
    ∃ totals, (calculateTotalResults specStats [exTwoOk, exTwoFailed] 0 exNoSamples).1
        = some totals ∧ totals.Successes = 2 ∧ totals.Failures = 2 := by
  have hs : inInt64 ([exTwoOk, exTwoFailed].map (·.Successes)).sum := by decide
  have hf : inInt64 ([exTwoOk, exTwoFailed].map (·.Failures)).sum := by decide
  refine ⟨by simp, hs, hf, ?_⟩
  obtain ⟨t, h1, _, _, h4, h5⟩ :=
    calculateTotalResults_sums specStats [exTwoOk, exTwoFailed] 0 exNoSamples (by simp)
  exact ⟨t, h1, h4 hs, h5 hf⟩

/-- C2, as the code has it. For every non-empty list the aggregator returns a
totals record whose `Ratio` is the `float64` quotient of `Successes` by
`Successes + Failures`; when no summary has a success or a failure, the
quotient is `0 / 0` and `Ratio` is NaN. -/
theorem calculateTotalResults_ratio (lib : StatsLib) (results : List RunResults)
    (totalTime : Duration) (subTimes : SubTimes) (h : results ≠ []) :
    ∃ totals, (calculateTotalResults lib results totalTime subTimes).1 = some totals ∧
      totals.Ratio = F64.div (F64.ofInt totals.Successes)
        (F64.ofInt (wrap64 (totals.Successes + totals.Failures))) ∧
      ((∀ r ∈ results, r.Successes = 0 ∧ r.Failures = 0) → totals.Ratio = F64.nan) := by
  obtain ⟨t, ht, hS, hF, hR⟩ :=
    calculateTotalResults_counts lib results totalTime subTimes h
  refine ⟨t, ht, hR, ?_⟩
  intro hz
  have hs : (results.map (·.Successes)).sum = 0 :=
    List.sum_eq_zero (by
      intro x hx
      obtain ⟨r, hr, rfl⟩ := List.mem_map.mp hx
      exact (hz r hr).1)
  have hf : (results.map (·.Failures)).sum = 0 :=
    List.sum_eq_zero (by
      intro x hx
      obtain ⟨r, hr, rfl⟩ := List.mem_map.mp hx
      exact (hz r hr).2)
  have hS0 : t.Successes = 0 := by rw [hS, hs]; rfl
  have hF0 : t.Failures = 0 := by rw [hF, hf]; rfl
  rw [hR, hS0, hF0]
  rfl

/-- A run in which no message was published: the ratio is NaN. -/
theorem calculateTotalResults_ratio_witness :
    [exIdle] ≠ [] ∧ (∀ r ∈ [exIdle], r.Successes = 0 ∧ r.Failures = 0) ∧
    ∃ totals, (calculateTotalResults specStats [exIdle] 0 exNoSamples).1 = some totals ∧
      totals.Ratio = F64.nan := by
  refine ⟨by simp, by decide, ?_⟩
  obtain ⟨t, h1, _, h3⟩ :=
    calculateTotalResults_ratio specStats [exIdle] 0 exNoSamples (by simp)
  exact ⟨t, h1, h3 (by decide)⟩

/-- C2 as stated fails on the list without summaries: no totals record is
returned. -/
theorem calculateTotalResults_empty_counterexample :
    (calculateTotalResults specStats [] 0 exNoSamples).1 = none := rfl

/-- C3, as the code has it. For every non-empty list, `MsgTimeMin` of the
totals is the `MsgTimeMin` of some client, no client's `MsgTimeMin` is below
it, and it is at most every client's when none is NaN. `MsgTimeMax` starts
from the zero value of the totals: it is `0` or the `MsgTimeMax` of some
client, it is at least `0`, no client's `MsgTimeMax` is above it, every
client's that is not NaN is at most it, and it is the `MsgTimeMax` of some
client as soon as one client's is above `0`. -/
theorem calculateTotalResults_minmax (lib : StatsLib) (results : List RunResults)
    (totalTime : Duration) (subTimes : SubTimes) (h : results ≠ []) :
    ∃ totals, (calculateTotalResults lib results totalTime subTimes).1 = some totals ∧
      (∃ r ∈ results, totals.MsgTimeMin = r.MsgTimeMin) ∧
      (∀ r ∈ results, F64.lt r.MsgTimeMin totals.MsgTimeMin = false) ∧
      ((∀ r ∈ results, r.MsgTimeMin.isNaN = false) →
        ∀ r ∈ results, F64.le totals.MsgTimeMin r.MsgTimeMin = true) ∧
      (totals.MsgTimeMax = F64.zero false ∨ ∃ r ∈ results, totals.MsgTimeMax = r.MsgTimeMax) ∧
      F64.le (F64.zero false) totals.MsgTimeMax = true ∧
      (∀ r ∈ results, F64.gt r.MsgTimeMax totals.MsgTimeMax = false) ∧
      (∀ r ∈ results, r.MsgTimeMax.isNaN = false →
        F64.le r.MsgTimeMax totals.MsgTimeMax = true) ∧
      ((∃ r ∈ results, F64.gt r.MsgTimeMax (F64.zero false) = true) →
        ∃ r ∈ results, totals.MsgTimeMax = r.MsgTimeMax) := by
  cases results with
  | nil => exact absurd rfl h
  | cons first rest =>
    have hmin := foldl_aggStep_MsgTimeMin lib subTimes (first :: rest)
      (aggInit first totalTime)
    have hmax := foldl_aggStep_MsgTimeMax lib subTimes (first :: rest)
      (aggInit first totalTime)
    have hmin0 : (aggInit first totalTime).totals.MsgTimeMin = first.MsgTimeMin := rfl
    have hmax0 : (aggInit first totalTime).totals.MsgTimeMax = F64.zero false := rfl
    rw [hmin0] at hmin
    rw [hmax0] at hmax
    have eMin : (aggFinish lib ((first :: rest).foldl (aggStep lib subTimes)
        (aggInit first totalTime))).MsgTimeMin =
        (first.MsgTimeMin :: rest.map (·.MsgTimeMin)).foldl (pick F64.lt)
          first.MsgTimeMin := hmin
    have eMax : (aggFinish lib ((first :: rest).foldl (aggStep lib subTimes)
        (aggInit first totalTime))).MsgTimeMax =
        ((first :: rest).map (·.MsgTimeMax)).foldl (pick F64.gt) (F64.zero false) := hmax
    obtain ⟨n1, n2, n3⟩ := runningMin_spec first.MsgTimeMin (rest.map (·.MsgTimeMin))
    obtain ⟨x1, x2, x3, x4, x5⟩ := runningMax_spec ((first :: rest).map (·.MsgTimeMax))
    rw [← eMin] at n1 n2 n3
    rw [← eMax] at x1 x2 x3 x4 x5
    have toMin : ∀ r ∈ first :: rest,
        r.MsgTimeMin ∈ first.MsgTimeMin :: rest.map (·.MsgTimeMin) := fun r hr =>
      List.mem_map_of_mem (·.MsgTimeMin) hr
    have ofMin : ∀ v ∈ first.MsgTimeMin :: rest.map (·.MsgTimeMin),
        ∃ r ∈ first :: rest, v = r.MsgTimeMin := fun v hv => by
      obtain ⟨r, hr, he⟩ := List.mem_map.mp (show v ∈ (first :: rest).map (·.MsgTimeMin)
        from hv)
      exact ⟨r, hr, he.symm⟩
    have toMax : ∀ r ∈ first :: rest,
        r.MsgTimeMax ∈ (first :: rest).map (·.MsgTimeMax) := fun r hr =>
      List.mem_map_of_mem (·.MsgTimeMax) hr
    have ofMax : ∀ v ∈ (first :: rest).map (·.MsgTimeMax),
        ∃ r ∈ first :: rest, v = r.MsgTimeMax := fun v hv => by
      obtain ⟨r, hr, he⟩ := List.mem_map.mp hv
      exact ⟨r, hr, he.symm⟩
    refine ⟨_, by rw [calculateTotalResults_cons], ofMin _ n1, fun r hr => n2 _ (toMin r hr),
      ?_, ?_, x2, fun r hr => x3 _ (toMax r hr), fun r hr hn => x4 _ (toMax r hr) hn, ?_⟩
    · intro hnan r hr
      refine n3 ?_ _ (toMin r hr)
      intro v hv
      obtain ⟨r', hr', he⟩ := ofMin v hv
      rw [he]
      exact hnan r' hr'
    · rcases x1 with hz | hm
      · exact Or.inl hz
      · exact Or.inr (ofMax _ hm)
    · rintro ⟨r, hr, hpos⟩
      exact ofMax _ (x5 ⟨_, toMax r hr, hpos⟩)

/-- Two clients with latencies 100 to 300 and 150 to 900, no NaN among them:
the totals report a minimum and a maximum that a client reported, the minimum
at most, and the maximum at least, every client's. -/
theorem calculateTotalResults_minmax_witness :
    [exFast, exSlow] ≠ [] ∧
    (∀ r ∈ [exFast, exSlow], r.MsgTimeMin.isNaN = false) ∧
    (∀ r ∈ [exFast, exSlow], r.MsgTimeMax.isNaN = false) ∧
    (∃ r ∈ [exFast, exSlow], F64.gt r.MsgTimeMax (F64.zero false) = true) ∧
    ∃ totals, (calculateTotalResults specStats [exFast, exSlow] 0 exNoSamples).1
        = some totals ∧
      (∃ r ∈ [exFast, exSlow], totals.MsgTimeMin = r.MsgTimeMin) ∧
      (∀ r ∈ [exFast, exSlow], F64.le totals.MsgTimeMin r.MsgTimeMin = true) ∧
      (∃ r ∈ [exFast, exSlow], totals.MsgTimeMax = r.MsgTimeMax) ∧
      (∀ r ∈ [exFast, exSlow], F64.le r.MsgTimeMax totals.MsgTimeMax = true) := by
  have hmin : ∀ r ∈ [exFast, exSlow], r.MsgTimeMin.isNaN = false := by decide!
  have hmax : ∀ r ∈ [exFast, exSlow], r.MsgTimeMax.isNaN = false := by decide!
  have hpos : ∃ r ∈ [exFast, exSlow], F64.gt r.MsgTimeMax (F64.zero false) = true := by
    decide!
  refine ⟨by simp, hmin, hmax, hpos, ?_⟩
  obtain ⟨t, h1, h2, _, h4, _, _, _, h8, h9⟩ :=
    calculateTotalResults_minmax specStats [exFast, exSlow] 0 exNoSamples (by simp)
  exact ⟨t, h1, h2, h4 hmin, h9 hpos, fun r hr => h8 r hr (hmax r hr)⟩

/-- C3 as stated fails when every client's `MsgTimeMax` is negative: the
totals report `0`, which no client reported and which is above every
client's value. -/
theorem calculateTotalResults_max_counterexample :
    (calculateTotalResults specStats [exNegative] 0 exNoSamples).1.map (·.MsgTimeMax)
        = some (F64.zero false) ∧
      (∀ r ∈ [exNegative], r.MsgTimeMax ≠ F64.zero false ∧
        F64.gt (F64.zero false) r.MsgTimeMax = true) := by
  decide!

/-! ## C4: the delivery side -/

/-- C4, as the code has it. For every non-empty list and every sample map,
the loop writes into each client's record the statistics of the samples found
under the client's ID; `MsgDelTimeMax` of the totals starts from the zero
value, as `MsgTimeMax` does: it is `0` or the delivery maximum of some client,
it is at least `0`, no client's delivery maximum is above it, every client's
that is not NaN is at most it, and it is the delivery maximum of some client
as soon as one of them is above `0`; `MsgDelTimeMeanAvg` and
`MsgDelTimeMeanStd` are the mean and the sample standard deviation, as the
statistics package computes them, of the per-client delivery means. -/
theorem calculateTotalResults_delivery (lib : StatsLib) (results : List RunResults)
    (totalTime : Duration) (subTimes : SubTimes) (h : results ≠ []) :
    ∃ totals, calculateTotalResults lib results totalTime subTimes =
        (some totals, results.map (withDelivery lib subTimes)) ∧
      (totals.MsgDelTimeMax = F64.zero false ∨
        ∃ r ∈ results, totals.MsgDelTimeMax = lib.StatsMax (subTimes r.ID)) ∧
      F64.le (F64.zero false) totals.MsgDelTimeMax = true ∧
      (∀ r ∈ results, F64.gt (lib.StatsMax (subTimes r.ID)) totals.MsgDelTimeMax = false) ∧
      (∀ r ∈ results, (lib.StatsMax (subTimes r.ID)).isNaN = false →
        F64.le (lib.StatsMax (subTimes r.ID)) totals.MsgDelTimeMax = true) ∧
      ((∃ r ∈ results, F64.gt (lib.StatsMax (subTimes r.ID)) (F64.zero false) = true) →
        ∃ r ∈ results, totals.MsgDelTimeMax = lib.StatsMax (subTimes r.ID)) ∧
      totals.MsgDelTimeMeanAvg =
        lib.StatsMean (results.map fun r => lib.StatsMean (subTimes r.ID)) ∧
      totals.MsgDelTimeMeanStd =
        lib.StatsSampleStandardDeviation
          (results.map fun r => lib.StatsMean (subTimes r.ID)) := by
  cases results with
  | nil => exact absurd rfl h
  | cons first rest =>
    have hmax := foldl_aggStep_MsgDelTimeMax lib subTimes (first :: rest)
      (aggInit first totalTime)
    have hmax0 : (aggInit first totalTime).totals.MsgDelTimeMax = F64.zero false := rfl
    rw [hmax0] at hmax
    have hmeans := foldl_aggStep_msgTimeMeansDelivered lib subTimes (first :: rest)
      (aggInit first totalTime)
    have hmeans0 : (aggInit first totalTime).msgTimeMeansDelivered = [] := rfl
    rw [hmeans0, List.nil_append] at hmeans
    have hres := foldl_aggStep_results lib subTimes (first :: rest)
      (aggInit first totalTime)
    have hres0 : (aggInit first totalTime).results = [] := rfl
    rw [hres0, List.nil_append] at hres
    have eMax : (aggFinish lib ((first :: rest).foldl (aggStep lib subTimes)
        (aggInit first totalTime))).MsgDelTimeMax =
        ((first :: rest).map fun r => lib.StatsMax (subTimes r.ID)).foldl (pick F64.gt)
          (F64.zero false) := hmax
    obtain ⟨x1, x2, x3, x4, x5⟩ :=
      runningMax_spec ((first :: rest).map fun r => lib.StatsMax (subTimes r.ID))
    rw [← eMax] at x1 x2 x3 x4 x5
    have toMax : ∀ r ∈ first :: rest, lib.StatsMax (subTimes r.ID) ∈
        (first :: rest).map fun r => lib.StatsMax (subTimes r.ID) := fun r hr =>
      List.mem_map_of_mem (fun r => lib.StatsMax (subTimes r.ID)) hr
    have ofMax : ∀ v ∈ (first :: rest).map fun r => lib.StatsMax (subTimes r.ID),
        ∃ r ∈ first :: rest, v = lib.StatsMax (subTimes r.ID) := fun v hv => by
      obtain ⟨r, hr, he⟩ := List.mem_map.mp hv
      exact ⟨r, hr, he.symm⟩
    refine ⟨_, by rw [calculateTotalResults_cons, hres], ?_, x2,
      fun r hr => x3 _ (toMax r hr), fun r hr hn => x4 _ (toMax r hr) hn, ?_, ?_, ?_⟩
    · rcases x1 with hz | hm
      · exact Or.inl hz
      · exact Or.inr (ofMax _ hm)
    · rintro ⟨r, hr, hpos⟩
      exact ofMax _ (x5 ⟨_, toMax r hr, hpos⟩)
    · show lib.StatsMean ((first :: rest).foldl (aggStep lib subTimes)
        (aggInit first totalTime)).msgTimeMeansDelivered = _
      rw [hmeans]
    · show lib.StatsSampleStandardDeviation ((first :: rest).foldl (aggStep lib subTimes)
        (aggInit first totalTime)).msgTimeMeansDelivered = _
      rw [hmeans]

/-- One client whose delivery samples are `[5]`: its delivery maximum `5`,
not NaN and above `0`, is the delivery maximum of the totals. -/
theorem calculateTotalResults_delivery_witness :
    [exIdle] ≠ [] ∧
    (∀ r ∈ [exIdle], (specStats.StatsMax (exLateSamples r.ID)).isNaN = false) ∧
    (∃ r ∈ [exIdle], F64.gt (specStats.StatsMax (exLateSamples r.ID)) (F64.zero false) = true) ∧
    ∃ totals, (calculateTotalResults specStats [exIdle] 0 exLateSamples).1 = some totals ∧
      (∃ r ∈ [exIdle], totals.MsgDelTimeMax = specStats.StatsMax (exLateSamples r.ID)) ∧
      (∀ r ∈ [exIdle],
        F64.le (specStats.StatsMax (exLateSamples r.ID)) totals.MsgDelTimeMax = true) := by
  have hnan : ∀ r ∈ [exIdle],
      (specStats.StatsMax (exLateSamples r.ID)).isNaN = false := by
    decide!
  have hpos : ∃ r ∈ [exIdle],
      F64.gt (specStats.StatsMax (exLateSamples r.ID)) (F64.zero false) = true := by
    decide!
  refine ⟨by simp, hnan, hpos, ?_⟩
  obtain ⟨t, h1, _, _, _, h5, h6, _, _⟩ :=
    calculateTotalResults_delivery specStats [exIdle] 0 exLateSamples (by simp)
  exact ⟨t, by rw [h1], h6 hpos, fun r hr => h5 r hr (hnan r hr)⟩

/-- C4 as stated fails when every delivery sample is negative: for one client
with the samples `[-5]` the client's delivery maximum is `-5` and the totals
report `0`, above it. -/
theorem calculateTotalResults_delivery_counterexample :
    (calculateTotalResults specStats [exIdle] 0 exEarlySamples).1.map (·.MsgDelTimeMax)
        = some (F64.zero false) ∧
      (∀ r ∈ [exIdle], specStats.StatsMax (exEarlySamples r.ID) = F64.ofInt (-5) ∧
        F64.gt (F64.zero false) (specStats.StatsMax (exEarlySamples r.ID)) = true) := by
  decide!

/-- The delivery minimum of the totals starts from the zero value and not,
as `MsgTimeMin` does, from the first client: for one client with the samples
`[5]` the client's delivery minimum is `5` and the totals report `0`. -/
theorem calculateTotalResults_delivery_min_seed :
    (calculateTotalResults specStats [exIdle] 0 exLateSamples).1.map (·.MsgDelTimeMin)
        = some (F64.zero false) ∧
      (calculateTotalResults specStats [exIdle] 0 exLateSamples).2.map (·.MsgDelTimeMin)
        = [F64.ofInt 5] := by
  decide!

/-! ## C8: the mean of the per-client means -/

theorem F64.ofInt_one : F64.ofInt 1 = F64.fin (F64.one : ℕ) := by
  decide!

/-- Rounding sees the quotient only: a common factor of numerator and
denominator changes nothing. -/
theorem F64.roundUnits_scale (neg : Bool) (n c : ℕ) (hc : 0 < c) :
    F64.roundUnits neg (n * c) c = F64.roundUnits neg n 1 := by
  unfold F64.roundUnits
  have h1 : n * c / c = n := Nat.mul_div_cancel n hc
  have h2 : n / 1 = n := Nat.div_one n
  rw [h1, h2]
  dsimp only
  have hD : n * c / (c * 2 ^ (F64.bitLog n - 52)) = n / (1 * 2 ^ (F64.bitLog n - 52)) := by
    rw [one_mul, Nat.mul_comm c, Nat.mul_div_mul_right _ _ hc]
  have hR : n * c % (c * 2 ^ (F64.bitLog n - 52)) =
      (n % (1 * 2 ^ (F64.bitLog n - 52))) * c := by
    rw [one_mul, Nat.mul_comm c, Nat.mul_mod_mul_right]
  rw [hD, hR]
  have e1 : (2 * (n % (1 * 2 ^ (F64.bitLog n - 52)) * c) > c * 2 ^ (F64.bitLog n - 52)) ↔
      (2 * (n % (1 * 2 ^ (F64.bitLog n - 52))) > 1 * 2 ^ (F64.bitLog n - 52)) := by
    rw [one_mul, Nat.mul_comm c, ← Nat.mul_assoc]
    exact Nat.mul_lt_mul_right hc
  have e2 : (2 * (n % (1 * 2 ^ (F64.bitLog n - 52)) * c) = c * 2 ^ (F64.bitLog n - 52)) ↔
      (2 * (n % (1 * 2 ^ (F64.bitLog n - 52))) = 1 * 2 ^ (F64.bitLog n - 52)) := by
    rw [one_mul, Nat.mul_comm c, ← Nat.mul_assoc]
    exact Nat.mul_left_inj (Nat.pos_iff_ne_zero.mp hc)
  simp only [e1, e2]

/-- Dividing a `float64` by `1.0` gives it back. -/
theorem F64.div_one (x : F64) (hx : F64.isF64 x) : F64.div x (F64.ofInt 1) = x := by
  rw [F64.ofInt_one]
  have hone : (0 : ℤ) ≤ ((F64.one : ℕ) : ℤ) := Int.ofNat_nonneg _
  have hneg : decide (((F64.one : ℕ) : ℤ) < 0) = false := by
    simp
  cases x with
  | nan => rfl
  | inf s => simp [F64.div, F64.signBit, hneg]
  | zero s => simp [F64.div, F64.signBit, hneg]
  | fin k =>
    obtain ⟨_, hk⟩ := hx
    have hpos : 0 < F64.one := by unfold F64.one; positivity
    simp only [F64.div, hneg, Bool.xor_false, Int.natAbs_ofNat]
    rw [F64.roundUnits_scale _ _ _ hpos, hk]

/-- The mean of one sample, as the spec words the mean, is the sample; only
the sign of a negative zero is lost. -/
theorem specMean_singleton (x : F64) (hx : F64.isF64 x) :
    specMean [x] = x ∨ (x = F64.zero true ∧ specMean [x] = F64.zero false) := by
  have hmean : specMean [x] = F64.div (F64.add (F64.zero false) x) (F64.ofInt 1) := by
    simp [specMean, specSum]
  rw [hmean]
  cases x with
  | nan => exact Or.inl (F64.div_one F64.nan trivial)
  | inf s => exact Or.inl (F64.div_one (F64.inf s) trivial)
  | zero s =>
    cases s
    · exact Or.inl (F64.div_one (F64.zero false) trivial)
    · exact Or.inr ⟨rfl, F64.div_one (F64.zero false) trivial⟩
  | fin k => exact Or.inl (F64.div_one (F64.fin k) hx)

/-- C8. For every non-empty list, `MsgTimeMeanAvg` of the totals is the mean,
as the statistics package computes it, of the list of the per-client
`MsgTimeMean` values and of nothing else; with the mean as the spec words it
and one client in the list, it is that client's `MsgTimeMean` (a negative zero
comes back as zero, the same number). -/
theorem calculateTotalResults_meanAvg :
    (∀ (lib : StatsLib) (results : List RunResults) (totalTime : Duration)
        (subTimes : SubTimes), results ≠ [] →
      ∃ totals, (calculateTotalResults lib results totalTime subTimes).1 = some totals ∧
        totals.MsgTimeMeanAvg = lib.StatsMean (results.map (·.MsgTimeMean))) ∧
    (∀ (r : RunResults) (totalTime : Duration) (subTimes : SubTimes),
      F64.isF64 r.MsgTimeMean →
      ∃ totals, (calculateTotalResults specStats [r] totalTime subTimes).1 = some totals ∧
        (totals.MsgTimeMeanAvg = r.MsgTimeMean ∨
          (r.MsgTimeMean = F64.zero true ∧ totals.MsgTimeMeanAvg = F64.zero false))) := by
  have general : ∀ (lib : StatsLib) (results : List RunResults) (totalTime : Duration)
      (subTimes : SubTimes), results ≠ [] →
      ∃ totals, (calculateTotalResults lib results totalTime subTimes).1 = some totals ∧
        totals.MsgTimeMeanAvg = lib.StatsMean (results.map (·.MsgTimeMean)) := by
    intro lib results totalTime subTimes h
    cases results with
    | nil => exact absurd rfl h
    | cons first rest =>
      have hmeans := foldl_aggStep_msgTimeMeans lib subTimes (first :: rest)
        (aggInit first totalTime)
      have hmeans0 : (aggInit first totalTime).msgTimeMeans = [] := rfl
      rw [hmeans0, List.nil_append] at hmeans
      refine ⟨_, by rw [calculateTotalResults_cons], ?_⟩
      show lib.StatsMean ((first :: rest).foldl (aggStep lib subTimes)
        (aggInit first totalTime)).msgTimeMeans = _
      rw [hmeans]
  refine ⟨general, ?_⟩
  intro r totalTime subTimes hr
  obtain ⟨t, ht, hm⟩ := general specStats [r] totalTime subTimes (by simp)
  refine ⟨t, ht, ?_⟩
  rw [hm]
  exact specMean_singleton r.MsgTimeMean hr

/-- One client with mean latency 200: the mean of means is the mean of the
one-element list of that mean, and it is 200. -/
theorem calculateTotalResults_meanAvg_witness :
    [exFast] ≠ [] ∧ F64.isF64 exFast.MsgTimeMean ∧
    (∃ totals, (calculateTotalResults specStats [exFast] 0 exNoSamples).1 = some totals ∧
      totals.MsgTimeMeanAvg = specStats.StatsMean ([exFast].map (·.MsgTimeMean))) ∧
    ∃ totals, (calculateTotalResults specStats [exFast] 0 exNoSamples).1 = some totals ∧
      totals.MsgTimeMeanAvg = F64.ofInt 200 := by
  have hwf : F64.isF64 exFast.MsgTimeMean := by decide!
  have hval : exFast.MsgTimeMean = F64.ofInt 200 := by decide!
  have hnz : exFast.MsgTimeMean ≠ F64.zero true := by decide!
  refine ⟨by simp, hwf,
    calculateTotalResults_meanAvg.1 specStats [exFast] 0 exNoSamples (by simp), ?_⟩
  obtain ⟨t, h1, h2⟩ := calculateTotalResults_meanAvg.2 exFast 0 exNoSamples hwf
  refine ⟨t, h1, ?_⟩
  rcases h2 with h | ⟨h, _⟩
  · rw [h, hval]
  · exact absurd h hnz

/-! ## C9: a second call -/

theorem aggStep_withDelivery (lib : StatsLib) (sub : SubTimes) (st : AggState)
    (r : RunResults) :
    aggStep lib sub st (withDelivery lib sub r) = aggStep lib sub st r := by
  simp only [aggStep, withDelivery]

theorem foldl_aggStep_withDelivery (lib : StatsLib) (sub : SubTimes)
    (rs : List RunResults) (st : AggState) :
    (rs.map (withDelivery lib sub)).foldl (aggStep lib sub) st =
      rs.foldl (aggStep lib sub) st := by
  induction rs generalizing st with
  | nil => rfl
  | cons r rs ih => rw [List.map_cons, List.foldl_cons, List.foldl_cons,
      aggStep_withDelivery, ih]

/-- C9. For every list, sample map and total duration, a second call of
`calculateTotalResults` on the list as the first call left it returns the same
totals, field for field (and no totals again when the first call returned
none), and leaves the list as it found it. -/
theorem calculateTotalResults_idempotent (lib : StatsLib) (results : List RunResults)
    (totalTime : Duration) (subTimes : SubTimes) :
    calculateTotalResults lib
        (calculateTotalResults lib results totalTime subTimes).2 totalTime subTimes =
      calculateTotalResults lib results totalTime subTimes := by
  cases results with
  | nil => rfl
  | cons first rest =>
    have hres := foldl_aggStep_results lib subTimes (first :: rest)
      (aggInit first totalTime)
    have hres0 : (aggInit first totalTime).results = [] := rfl
    rw [hres0, List.nil_append] at hres
    rw [calculateTotalResults_cons]
    simp only []
    have hinit : aggInit (withDelivery lib subTimes first) totalTime =
        aggInit first totalTime := rfl
    rw [hres, List.map_cons, calculateTotalResults_cons, ← List.map_cons,
      foldl_aggStep_withDelivery, hinit, hres]

/-! ## C6: the results of one publisher -/

theorem foldl_onResult_times (ms : List Message) (st : PubState) :
    (ms.foldl onResult st).times =
      st.times ++ (ms.filter fun m => !m.Error).map latency := by
  induction ms generalizing st with
  | nil => simp
  | cons m ms ih =>
    rw [List.foldl_cons, ih]
    cases he : m.Error <;> simp [onResult, he]

theorem foldl_onResult_Successes (ms : List Message) (st : PubState)
    (h : inInt64 st.runResults.Successes) :
    (ms.foldl onResult st).runResults.Successes =
      wrap64 (st.runResults.Successes + ((ms.filter fun m => !m.Error).length : ℤ)) := by
  induction ms generalizing st with
  | nil => simp [wrap64_of_inInt64 h]
  | cons m ms ih =>
    rw [List.foldl_cons]
    cases he : m.Error
    · have hs : (onResult st m).runResults.Successes =
          wrap64 (st.runResults.Successes + 1) := by simp [onResult, he]
      rw [ih _ (by rw [hs]; exact wrap64_inInt64 _), hs, wrap64_add_left]
      simp [he, add_assoc, add_comm]
    · have hs : (onResult st m).runResults.Successes = st.runResults.Successes := by
        simp [onResult, he]
      rw [ih _ (by rw [hs]; exact h), hs]
      simp [he]

theorem foldl_onResult_Failures (ms : List Message) (st : PubState)
    (h : inInt64 st.runResults.Failures) :
    (ms.foldl onResult st).runResults.Failures =
      wrap64 (st.runResults.Failures + ((ms.filter fun m => m.Error).length : ℤ)) := by
  induction ms generalizing st with
  | nil => simp [wrap64_of_inInt64 h]
  | cons m ms ih =>
    rw [List.foldl_cons]
    cases he : m.Error
    · have hs : (onResult st m).runResults.Failures = st.runResults.Failures := by
        simp [onResult, he]
      rw [ih _ (by rw [hs]; exact h), hs]
      simp [he]
    · have hs : (onResult st m).runResults.Failures =
          wrap64 (st.runResults.Failures + 1) := by simp [onResult, he]
      rw [ih _ (by rw [hs]; exact wrap64_inInt64 _), hs, wrap64_add_left]
      simp [he, add_assoc, add_comm]

theorem RunPublisher_eq (lib : StatsLib) (duration : Duration) (ms : List Message)
    (rest : List Signal) (st : PubState) :
    RunPublisher lib duration st (ms.map Signal.msg ++ Signal.done :: rest) =
      some (onDone lib (ms.foldl onResult st) duration) := by
  induction ms generalizing st with
  | nil => rfl
  | cons m ms ih =>
    rw [List.map_cons, List.cons_append, RunPublisher, List.foldl_cons, ih]

/-- C6. For every sequence of publish results that `RunPublisher` takes
before the done signal, the reported results have `Successes` the number of
results without error and `Failures` the number of results with error (counted
in `int64`; exactly, for fewer than `2 ^ 63` results), and `MsgTimeMin`,
`MsgTimeMax` and `MsgTimeMean` are what the statistics package gives as
minimum, maximum and mean of the latencies, `Delivered` minus `Sent` in whole
microseconds, of the results without error, in the order they came. -/
theorem RunPublisher_results (lib : StatsLib) (duration : Duration) (ms : List Message)
    (rest : List Signal) :
    ∃ r, RunPublisher lib duration PubState.init (ms.map Signal.msg ++ Signal.done :: rest)
        = some r ∧
      r.Successes = wrap64 ((ms.filter fun m => !m.Error).length : ℤ) ∧
      r.Failures = wrap64 ((ms.filter fun m => m.Error).length : ℤ) ∧
      (ms.length < 2 ^ 63 →
        r.Successes = ((ms.filter fun m => !m.Error).length : ℤ) ∧
        r.Failures = ((ms.filter fun m => m.Error).length : ℤ)) ∧
      r.MsgTimeMin = lib.StatsMin ((ms.filter fun m => !m.Error).map latency) ∧
      r.MsgTimeMax = lib.StatsMax ((ms.filter fun m => !m.Error).map latency) ∧
      r.MsgTimeMean = lib.StatsMean ((ms.filter fun m => !m.Error).map latency) := by
  have hS := foldl_onResult_Successes ms PubState.init inInt64_zero
  have hF := foldl_onResult_Failures ms PubState.init inInt64_zero
  have hT := foldl_onResult_times ms PubState.init
  have hS0 : PubState.init.runResults.Successes = 0 := rfl
  have hF0 : PubState.init.runResults.Failures = 0 := rfl
  have hT0 : PubState.init.times = [] := rfl
  rw [hS0, zero_add] at hS
  rw [hF0, zero_add] at hF
  rw [hT0, List.nil_append] at hT
  have eS : (onDone lib (ms.foldl onResult PubState.init) duration).Successes =
      (ms.foldl onResult PubState.init).runResults.Successes := rfl
  have eF : (onDone lib (ms.foldl onResult PubState.init) duration).Failures =
      (ms.foldl onResult PubState.init).runResults.Failures := rfl
  refine ⟨_, RunPublisher_eq lib duration ms rest PubState.init, ?_, ?_, ?_, ?_, ?_, ?_⟩
  · rw [eS, hS]
  · rw [eF, hF]
  · intro hlen
    have h1 := List.length_filter_le (fun m : Message => !m.Error) ms
    have h2 := List.length_filter_le (fun m : Message => m.Error) ms
    rw [eS, hS, eF, hF]
    constructor
    · apply wrap64_of_inInt64
      unfold inInt64
      omega
    · apply wrap64_of_inInt64
      unfold inInt64
      omega
  · show lib.StatsMin (ms.foldl onResult PubState.init).times = _
    rw [hT]
  · show lib.StatsMax (ms.foldl onResult PubState.init).times = _
    rw [hT]
  · show lib.StatsMean (ms.foldl onResult PubState.init).times = _
    rw [hT]

/-- The scenario of C6: three publishes acknowledged after 100, 200 and 300
microseconds give mean 200, minimum 100, maximum 300, three successes and no
failure. -/
theorem RunPublisher_results_witness :
    [exPublished 0 100, exPublished 1000000 200, exPublished 2000000 300].length < 2 ^ 63 ∧
    ∃ r, RunPublisher specStats 1000000000 PubState.init
        ([exPublished 0 100, exPublished 1000000 200, exPublished 2000000 300].map Signal.msg
          ++ Signal.done :: []) = some r ∧
      r.Successes = 3 ∧ r.Failures = 0 ∧ r.MsgTimeMean = F64.ofInt 200 ∧
      r.MsgTimeMin = F64.ofInt 100 ∧ r.MsgTimeMax = F64.ofInt 300 := by
  have hlen : [exPublished 0 100, exPublished 1000000 200,
      exPublished 2000000 300].length < 2 ^ 63 := by decide
  refine ⟨hlen, ?_⟩
  obtain ⟨r, h1, _, _, h4, h5, h6, h7⟩ := RunPublisher_results specStats 1000000000
    [exPublished 0 100, exPublished 1000000 200, exPublished 2000000 300] []
  obtain ⟨hs, hf⟩ := h4 hlen
  refine ⟨r, h1, ?_, ?_, ?_, ?_, ?_⟩
  · rw [hs]; decide
  · rw [hf]; decide
  · rw [h7]; decide!
  · rw [h5]; decide!
  · rw [h6]; decide!



/-! ## C7: the generator -/

theorem makeBytes_eq (maxAlloc : ℕ) (n : ℤ) (h0 : 0 ≤ n) (h1 : n ≤ maxAlloc) :
    makeBytes maxAlloc n = some (List.replicate n.toNat 0) := by
  unfold makeBytes
  rw [if_neg]
  omega

theorem genLoop_eq (maxAlloc : ℕ) (c : Client) (hS : 0 ≤ c.MsgSize)
    (hA : c.MsgSize ≤ maxAlloc) (n : ℕ) :
    genLoop maxAlloc c n = some (List.replicate n
        (Signal.msg (newMessage c (List.replicate c.MsgSize.toNat 0))) ++ [Signal.done]) := by
  induction n with
  | zero => rfl
  | succ n ih =>
    unfold genLoop
    rw [makeBytes_eq maxAlloc c.MsgSize hS hA]
    simp only [ih, List.replicate_succ, List.cons_append]

/-- C7, as the code has it. For every message count `N ≥ 0`, topic, QoS and
payload size from `0` to the largest length the runtime allocates,
`genMessages` sends exactly `N` messages and then, once, the done signal; each
message carries the topic and the QoS of the client, a payload of exactly the
requested number of zero bytes, zero timestamps and `Error = false`. -/
theorem genMessages_emits (maxAlloc : ℕ) (c : Client) (hN : 0 ≤ c.MsgCount)
    (hS : 0 ≤ c.MsgSize) (hA : c.MsgSize ≤ maxAlloc) :
    ∃ msgs : List Message,
      genMessages maxAlloc c = some (msgs.map Signal.msg ++ [Signal.done]) ∧
      (msgs.length : ℤ) = c.MsgCount ∧
      ∀ m ∈ msgs, m.Topic = c.MsgTopic ∧ m.QoS = c.MsgQoS ∧
        (∃ bytes, m.Payload.Payload = some bytes ∧ (bytes.length : ℤ) = c.MsgSize ∧
          ∀ b ∈ bytes, b = 0) ∧
        m.Sent = 0 ∧ m.Delivered = 0 ∧ m.DeliveredToSub = 0 ∧ m.Payload.Sent = 0 ∧
        m.Error = false := by
  refine ⟨List.replicate c.MsgCount.toNat
    (newMessage c (List.replicate c.MsgSize.toNat 0)), ?_, ?_, ?_⟩
  · unfold genMessages
    rw [genLoop_eq maxAlloc c hS hA, List.map_replicate]
  · rw [List.length_replicate]
    exact Int.toNat_of_nonneg hN
  · intro m hm
    rw [List.eq_of_mem_replicate hm]
    refine ⟨rfl, rfl, ⟨_, rfl, ?_, ?_⟩, rfl, rfl, rfl, rfl, rfl⟩
    · rw [List.length_replicate]
      exact Int.toNat_of_nonneg hS
    · intro b hb
      exact List.eq_of_mem_replicate hb

/-- A client set up for three messages of two bytes sends three messages,
then the done signal. -/
theorem genMessages_emits_witness :
    (0 : ℤ) ≤ exClient.MsgCount ∧ (0 : ℤ) ≤ exClient.MsgSize ∧
    exClient.MsgSize ≤ (exMaxAlloc : ℤ) ∧
    ∃ msgs : List Message,
      genMessages exMaxAlloc exClient = some (msgs.map Signal.msg ++ [Signal.done]) ∧
      (msgs.length : ℤ) = 3 := by
  have hA : exClient.MsgSize ≤ (exMaxAlloc : ℤ) := by decide
  refine ⟨by decide, by decide, hA, ?_⟩
  obtain ⟨msgs, h1, h2, _⟩ :=
    genMessages_emits exMaxAlloc exClient (by decide) (by decide) hA
  exact ⟨msgs, h1, h2⟩

/-- C7 as stated fails for a payload size that `make` does not allocate: with
a message count of three and a payload size of `-1`, or of `2 ^ 62` where the
runtime allocates `2 ^ 48` bytes at most, `genMessages` panics before its
first send: no message and no done signal. -/
theorem genMessages_size_counterexample :
    (0 : ℤ) ≤ exNegativeSize.MsgCount ∧ genMessages exMaxAlloc exNegativeSize = none ∧
    (0 : ℤ) ≤ exHugeSize.MsgCount ∧ (0 : ℤ) ≤ exHugeSize.MsgSize ∧
    genMessages exMaxAlloc exHugeSize = none := by
  decide

/-! ## C5: the pipeline of one publisher -/

theorem onResult_counts (st : PubState) (m : Message) (B : ℤ) (hB : B < 2 ^ 63)
    (hS : 0 ≤ st.runResults.Successes) (hF : 0 ≤ st.runResults.Failures)
    (hle : st.runResults.Successes + st.runResults.Failures + 1 ≤ B) :
    0 ≤ (onResult st m).runResults.Successes ∧ 0 ≤ (onResult st m).runResults.Failures ∧
    (onResult st m).runResults.Successes + (onResult st m).runResults.Failures =
      st.runResults.Successes + st.runResults.Failures + 1 := by
  cases he : m.Error
  · have h1 : (onResult st m).runResults.Successes =
        wrap64 (st.runResults.Successes + 1) := by simp [onResult, he]
    have h2 : (onResult st m).runResults.Failures = st.runResults.Failures := by
      simp [onResult, he]
    have h3 : wrap64 (st.runResults.Successes + 1) = st.runResults.Successes + 1 := by
      apply wrap64_of_inInt64
      unfold inInt64
      omega
    rw [h1, h2, h3]
    omega
  · have h1 : (onResult st m).runResults.Successes = st.runResults.Successes := by
      simp [onResult, he]
    have h2 : (onResult st m).runResults.Failures =
        wrap64 (st.runResults.Failures + 1) := by simp [onResult, he]
    have h3 : wrap64 (st.runResults.Failures + 1) = st.runResults.Failures + 1 := by
      apply wrap64_of_inInt64
      unfold inInt64
      omega
    rw [h1, h2, h3]
    omega

theorem loopStep_nil (lib : StatsLib) (clientID : String) (o : PublishOutcome)
    (d : Duration) (gen : List Signal) (coord : CoordPc) (i : ℕ) :
    Pipeline.loopStep lib clientID o d { gen := gen, loops := [], coord := coord } i
      = none := by
  simp [Pipeline.loopStep]

theorem loopStep_succ (lib : StatsLib) (clientID : String) (o : PublishOutcome)
    (d : Duration) (gen : List Signal) (p : PubPc) (coord : CoordPc) (i : ℕ) :
    Pipeline.loopStep lib clientID o d { gen := gen, loops := [p], coord := coord } (i + 1)
      = none := by
  simp [Pipeline.loopStep]

/-- A step of the one run of the publish loop keeps the invariant. -/
theorem pipelineInv_loopStep (lib : StatsLib) (clientID : String) (o : PublishOutcome)
    (d : Duration) (N : ℤ) (hN : N < 2 ^ 63) (s s' : Pipeline) (i : ℕ)
    (hinv : PipelineInv N s) (hstep : Pipeline.loopStep lib clientID o d s i = some s') :
    PipelineInv N s' := by
  obtain ⟨gen, loops, coord⟩ := s
  rcases hinv with ⟨st, hc, hg, hp⟩ | ⟨st, ms, hc, hg, hS, hF, hp⟩ |
      ⟨st, hc, hg, hp, hS, hF, hsum⟩ | ⟨r, hc, hp, hsum⟩
  · simp only at hc hg hp
    subst hc hg
    rcases hp with hp | hp
    · subst hp
      rw [loopStep_nil] at hstep
      cases hstep
    · subst hp
      cases i with
      | zero => simp [Pipeline.loopStep] at hstep
      | succ i => rw [loopStep_succ] at hstep; cases hstep
  · simp only at hc hg hp
    subst hc hg
    rcases hp with ⟨hp | hp, hsum⟩ | ⟨m, hp, hsum⟩
    · subst hp
      rw [loopStep_nil] at hstep
      cases hstep
    · subst hp
      cases i with
      | succ i => rw [loopStep_succ] at hstep; cases hstep
      | zero =>
        cases ms with
        | nil =>
          simp only [Pipeline.loopStep, List.map_nil, List.nil_append, List.length_cons,
            List.length_nil, Nat.zero_lt_succ, List.getElem?_eq_getElem,
            List.getElem_cons_zero, List.set_cons_zero, Option.some.injEq] at hstep
          subst hstep
          refine Or.inr (Or.inr (Or.inl ⟨st, rfl, rfl, rfl, hS, hF, ?_⟩))
          simpa using hsum
        | cons m ms =>
          simp only [Pipeline.loopStep, List.map_cons, List.cons_append, List.length_cons,
            List.length_nil, Nat.zero_lt_succ, List.getElem?_eq_getElem,
            List.getElem_cons_zero, List.set_cons_zero, Option.some.injEq] at hstep
          subst hstep
          refine Or.inr (Or.inl ⟨st, ms, rfl, rfl, hS, hF, Or.inr ⟨_, rfl, ?_⟩⟩)
          simp only [List.length_cons, Nat.cast_add, Nat.cast_one] at hsum
          omega
    · subst hp
      cases i with
      | succ i => rw [loopStep_succ] at hstep; cases hstep
      | zero =>
        simp only [Pipeline.loopStep, List.length_cons, List.length_nil, Nat.zero_lt_succ,
          List.getElem?_eq_getElem, List.getElem_cons_zero, List.set_cons_zero,
          Option.some.injEq] at hstep
        subst hstep
        have hms : (0 : ℤ) ≤ (ms.length : ℤ) := Int.ofNat_nonneg _
        obtain ⟨h1, h2, h3⟩ := onResult_counts st m N hN hS hF (by omega)
        refine Or.inr (Or.inl ⟨onResult st m, ms, rfl, rfl, h1, h2,
          Or.inl ⟨Or.inr rfl, ?_⟩⟩)
        omega
  · simp only at hc hg hp
    subst hc hg hp
    cases i with
    | succ i => rw [loopStep_succ] at hstep; cases hstep
    | zero =>
      simp only [Pipeline.loopStep, List.length_cons, List.length_nil, Nat.zero_lt_succ,
        List.getElem?_eq_getElem, List.getElem_cons_zero, List.set_cons_zero,
        Option.some.injEq] at hstep
      subst hstep
      exact Or.inr (Or.inr (Or.inr ⟨_, rfl, rfl, hsum⟩))
  · simp only at hc hp
    subst hc hp
    cases i with
    | succ i => rw [loopStep_succ] at hstep; cases hstep
    | zero => simp [Pipeline.loopStep] at hstep

/-- The first start of the publish loop keeps the invariant. -/
theorem pipelineInv_connected (N : ℤ) (s : Pipeline) (hinv : PipelineInv N s)
    (hl : s.loops = []) : PipelineInv N { s with loops := s.loops ++ [.idle] } := by
  obtain ⟨gen, loops, coord⟩ := s
  simp only at hl
  subst hl
  rcases hinv with ⟨st, hc, hg, hp⟩ | ⟨st, ms, hc, hg, hS, hF, hp⟩ |
      ⟨st, hc, hg, hp, hS, hF, hsum⟩ | ⟨r, hc, hp, hsum⟩
  · exact Or.inl ⟨st, hc, hg, Or.inr rfl⟩
  · rcases hp with ⟨_, hsum⟩ | ⟨m, hp, _⟩
    · exact Or.inr (Or.inl ⟨st, ms, hc, hg, hS, hF, Or.inl ⟨Or.inr rfl, hsum⟩⟩)
    · simp at hp
  · simp at hp
  · simp at hp

theorem loopStep_length (lib : StatsLib) (clientID : String) (o : PublishOutcome)
    (d : Duration) (s s' : Pipeline) (i : ℕ)
    (h : Pipeline.loopStep lib clientID o d s i = some s') :
    s'.loops.length = s.loops.length := by
  unfold Pipeline.loopStep at h
  split at h <;> first
    | (simp only [Option.some.injEq] at h; subst h; simp)
    | cases h

theorem pipelineInv_run (lib : StatsLib) (clientID : String) (N : ℤ) (hN : N < 2 ^ 63)
    (es : List Event) (s : Pipeline) (hinv : PipelineInv N s)
    (hc : connects es + s.loops.length ≤ 1) :
    PipelineInv N (Pipeline.run lib clientID es s) := by
  induction es generalizing s with
  | nil => exact hinv
  | cons e es ih =>
    unfold Pipeline.run
    cases hm : e.move with
    | connected =>
      have hce : connects (e :: es) = connects es + 1 := by
        simp [connects, List.filter_cons, hm]
      have hl : s.loops = [] := List.length_eq_zero.mp (by omega)
      simp only [Pipeline.step]
      refine ih _ (pipelineInv_connected N s hinv hl) ?_
      simp only [List.length_append, List.length_cons, List.length_nil]
      omega
    | loop i =>
      have hce : connects (e :: es) = connects es := by
        simp [connects, List.filter_cons, hm]
      simp only [Pipeline.step]
      cases hs : Pipeline.loopStep lib clientID e.outcome e.duration s i with
      | none => exact ih s hinv (by omega)
      | some s' =>
        refine ih s' (pipelineInv_loopStep lib clientID _ _ N hN s s' i hinv hs) ?_
        rw [loopStep_length lib clientID _ _ s s' i hs]
        omega

theorem pipelineInv_start (maxAlloc : ℕ) (c : Client) (hN : 0 ≤ c.MsgCount) :
    PipelineInv c.MsgCount (Pipeline.start maxAlloc c) := by
  by_cases hS : 0 ≤ c.MsgSize ∧ c.MsgSize ≤ maxAlloc
  · refine Or.inr (Or.inl ⟨PubState.init, List.replicate c.MsgCount.toNat
      (newMessage c (List.replicate c.MsgSize.toNat 0)), rfl, ?_, le_refl _, le_refl _,
      Or.inl ⟨Or.inl rfl, ?_⟩⟩)
    · unfold Pipeline.start genMessages
      rw [genLoop_eq maxAlloc c hS.1 hS.2, List.map_replicate]
      rfl
    · rw [List.length_replicate, Int.toNat_of_nonneg hN]
      show (0 : ℤ) + 0 + c.MsgCount = c.MsgCount
      omega
  · cases hn : c.MsgCount.toNat with
    | zero =>
      refine Or.inr (Or.inl ⟨PubState.init, [], rfl, ?_, le_refl _, le_refl _,
        Or.inl ⟨Or.inl rfl, ?_⟩⟩)
      · unfold Pipeline.start genMessages
        rw [hn]
        rfl
      · have : c.MsgCount = 0 := by omega
        rw [this]
        rfl
    | succ k =>
      refine Or.inl ⟨PubState.init, rfl, ?_, Or.inl rfl⟩
      unfold Pipeline.start genMessages
      rw [hn]
      unfold genLoop makeBytes
      rw [if_pos (by omega)]
      rfl

/-- In every run in which the client connects at most once, for a message
count `N ≥ 0` (an `int`), whatever the broker answers and in whatever order
the goroutines move: whenever `RunPublisher` has reported its results,
`Successes + Failures = N`. -/
theorem pipeline_counts_connected_once (lib : StatsLib) (maxAlloc : ℕ) (c : Client)
    (clientID : String) (es : List Event) (hN : 0 ≤ c.MsgCount)
    (hInt : c.MsgCount < 2 ^ 63) (hone : connects es ≤ 1) :
    ∀ r, (Pipeline.run lib clientID es (Pipeline.start maxAlloc c)).coord = .reported r →
      r.Successes + r.Failures = c.MsgCount := by
  intro r hr
  have hinv := pipelineInv_run lib clientID c.MsgCount hInt es (Pipeline.start maxAlloc c)
    (pipelineInv_start maxAlloc c hN) (by
      show connects es + 0 ≤ 1
      omega)
  rcases hinv with ⟨st, hc, _⟩ | ⟨st, ms, hc, _⟩ | ⟨st, hc, _⟩ | ⟨r', hc, _, hsum⟩
  · rw [hc] at hr; cases hr
  · rw [hc] at hr; cases hr
  · rw [hc] at hr; cases hr
  · rw [hc] at hr
    cases hr
    exact hsum

/-- From its `select`, with `k` messages and the done signal still to come
from the generator, the one run of the publish loop brings the coordinator to
its report in `2 * k + 2` steps. -/
theorem run_from_idle (lib : StatsLib) (clientID : String) (ms : List Message)
    (es : List Event) (st : PubState) (hmv : ∀ e ∈ es, e.move = Move.loop 0)
    (hlen : es.length = 2 * ms.length + 2) :
    ∃ r, (Pipeline.run lib clientID es
      { gen := ms.map Signal.msg ++ [Signal.done], loops := [.idle],
        coord := .running st }).coord = .reported r := by
  induction ms generalizing es st with
  | nil =>
    match es, hlen with
    | [e1, e2], _ =>
      have h1 : e1.move = Move.loop 0 := hmv e1 (by simp)
      have h2 : e2.move = Move.loop 0 := hmv e2 (by simp)
      refine ⟨onDone lib st e2.duration, ?_⟩
      simp [Pipeline.run, Pipeline.step, Pipeline.loopStep, h1, h2]
  | cons m ms ih =>
    match es, hlen with
    | e1 :: e2 :: es', hlen' =>
      have h1 : e1.move = Move.loop 0 := hmv e1 (by simp)
      have h2 : e2.move = Move.loop 0 := hmv e2 (by simp)
      have hrest : ∀ e ∈ es', e.move = Move.loop 0 := fun e he =>
        hmv e (List.mem_cons_of_mem _ (List.mem_cons_of_mem _ he))
      have hl : es'.length = 2 * ms.length + 2 := by
        simp only [List.length_cons] at hlen'
        omega
      obtain ⟨r, hr⟩ := ih es' (onResult st (publish clientID m e1.outcome)) hrest hl
      refine ⟨r, ?_⟩
      simpa [Pipeline.run, Pipeline.step, Pipeline.loopStep, h1, h2] using hr

/-- With a payload size that `make` allocates, a run in which the client
connects and the one run of the publish loop then takes `2 * N + 2` steps
ends with the results reported. -/
theorem pipeline_reports_connected_once (lib : StatsLib) (maxAlloc : ℕ) (c : Client)
    (clientID : String) (e₀ : Event) (es : List Event) (hS : 0 ≤ c.MsgSize)
    (hA : c.MsgSize ≤ maxAlloc) (h₀ : e₀.move = Move.connected)
    (hmv : ∀ e ∈ es, e.move = Move.loop 0)
    (hlen : es.length = 2 * c.MsgCount.toNat + 2) :
    ∃ r, (Pipeline.run lib clientID (e₀ :: es) (Pipeline.start maxAlloc c)).coord
      = .reported r := by
  have hstart : Pipeline.start maxAlloc c =
      { gen := (List.replicate c.MsgCount.toNat
          (newMessage c (List.replicate c.MsgSize.toNat 0))).map Signal.msg ++ [Signal.done],
        loops := [], coord := .running PubState.init } := by
    unfold Pipeline.start genMessages
    rw [genLoop_eq maxAlloc c hS hA, List.map_replicate]
    rfl
  have h := run_from_idle lib clientID (List.replicate c.MsgCount.toNat
    (newMessage c (List.replicate c.MsgSize.toNat 0))) es PubState.init hmv
    (by rw [List.length_replicate]; exact hlen)
  rw [hstart]
  simpa [Pipeline.run, Pipeline.step, h₀] using h

/-- C5, as the code runs with a reconnection. The client is set up for three
messages and connects twice. The first run of the publish loop takes the
first message; while that publish is pending the client reconnects and the
second run of the loop takes the other two messages and the done signal.
`RunPublisher` then reports with two results counted, the first run still
holding its message. In the run without reconnection all three are counted. -/
theorem pipeline_reconnect_drops :
    exClient.MsgCount = 3 ∧ connects exReconnect = 2 ∧
    (Pipeline.run specStats "pub-0" exReconnect
      (Pipeline.start exMaxAlloc exClient)).coord.counted = some 2 ∧
    (Pipeline.run specStats "pub-0" exReconnect
      (Pipeline.start exMaxAlloc exClient)).loops =
        [.holding (publish "pub-0" (newMessage exClient [0, 0])
          (exEvent (Move.loop 0)).outcome), .finished] ∧
    connects exSteady = 1 ∧
    (Pipeline.run specStats "pub-0" exSteady
      (Pipeline.start exMaxAlloc exClient)).coord.counted = some 3 := by
  decide!

/-! ## C10: the orchestrator -/

theorem mainProgram_zero : mainProgram 0 = [Op.send Chan.done, Op.aggregate] := rfl

theorem mainProgram_succ (k : ℕ) :
    mainProgram (k + 1) = Op.recv Chan.resCh :: mainProgram k := by
  simp [mainProgram, List.replicate_succ]

theorem not_mem_of_mem_set {ps : List (List Op)} {i : ℕ} {p q : List Op}
    (hps : ∀ p ∈ ps, Op.recv Chan.done ∉ p) (hp : Op.recv Chan.done ∉ p)
    (hq : q ∈ ps.set i p) : Op.recv Chan.done ∉ q := by
  rcases List.mem_or_eq_of_mem_set hq with h | h
  · exact hps q h
  · rw [h]; exact hp

theorem clientStep_main (s s' : Orchestra) (i : ℕ) (k : ℕ)
    (hmain : s.main = mainProgram k)
    (hcl : ∀ p ∈ s.clients, Op.recv Chan.done ∉ p)
    (h : s.clientStep i = some s') :
    (∃ k', s'.main = mainProgram k') ∧ ∀ p ∈ s'.clients, Op.recv Chan.done ∉ p := by
  obtain ⟨main, clients, wg, panicked⟩ := s
  simp only at hmain hcl
  subst hmain
  unfold Orchestra.clientStep at h
  cases panicked with
  | true => simp at h
  | false =>
    simp only [Bool.false_eq_true, if_false] at h
    cases hg : clients[i]? with
    | none => simp [hg] at h
    | some prog =>
      have hmem : prog ∈ clients := List.getElem?_mem hg
      have hprog := hcl prog hmem
      cases prog with
      | nil => simp [hg] at h
      | cons op p =>
        have hp : Op.recv Chan.done ∉ p := fun hin => hprog (List.mem_cons_of_mem _ hin)
        cases op with
        | subscribe =>
          simp only [hg, Option.some.injEq] at h
          subst h
          exact ⟨⟨k, rfl⟩, fun q hq => not_mem_of_mem_set hcl hp hq⟩
        | wgDone =>
          simp only [hg] at h
          split_ifs at h
          · simp only [Option.some.injEq] at h
            subst h
            exact ⟨⟨k, rfl⟩, hcl⟩
          · simp only [Option.some.injEq] at h
            subst h
            exact ⟨⟨k, rfl⟩, fun q hq => not_mem_of_mem_set hcl hp hq⟩
        | aggregate => simp [hg] at h
        | send ch =>
          cases k with
          | zero => simp [hg, mainProgram_zero] at h
          | succ k =>
            simp only [hg, mainProgram_succ] at h
            split_ifs at h with hch
            simp only [Option.some.injEq] at h
            subst h
            exact ⟨⟨k, rfl⟩, fun q hq => not_mem_of_mem_set hcl hp hq⟩
        | recv ch =>
          cases k with
          | zero =>
            simp only [hg, mainProgram_zero] at h
            split_ifs at h with hch
            subst hch
            exact absurd (List.mem_cons_self _ _) hprog
          | succ k => simp [hg, mainProgram_succ] at h

theorem mainStep_main (s : Orchestra) (k : ℕ) (hmain : s.main = mainProgram k) :
    s.mainStep = none := by
  unfold Orchestra.mainStep
  cases k with
  | zero => rw [hmain, mainProgram_zero]; simp
  | succ k => rw [hmain, mainProgram_succ]; simp

/-- However the goroutines are scheduled, with any number of publishers and
subscribers, `main` stays in front of its send on `done`: no client ever
receives from that channel. -/
theorem main_never_past_send (pubs subs : ℕ) (s : Orchestra)
    (h : Orchestra.Reachable (Orchestra.start pubs subs) s) :
    (∃ k, s.main = mainProgram k) ∧ ∀ p ∈ s.clients, Op.recv Chan.done ∉ p := by
  induction h with
  | start =>
    refine ⟨⟨pubs, rfl⟩, ?_⟩
    intro p hp
    simp only [Orchestra.start, List.mem_append] at hp
    rcases hp with hp | hp
    · rw [List.eq_of_mem_replicate hp]; decide
    · rw [List.eq_of_mem_replicate hp]; decide
  | step hr hs ih =>
    obtain ⟨⟨k, hk⟩, hcl⟩ := ih
    unfold Orchestra.next at hs
    rw [mainStep_main _ k hk] at hs
    simp only [Option.toList, List.nil_append, List.mem_filterMap] at hs
    obtain ⟨i, _, hi⟩ := hs
    exact clientStep_main _ _ i k hk hcl hi

/-- C10, as the code runs with one publisher and no subscriber. The states
within one step of the start are all the states the run can reach; in each of
them `main` has its send on `done` and the call of `calculateTotalResults`
still before it; and the run ends, without a panic, in the state where the
publisher has reported and `main` is stuck at the send that no goroutine
receives. -/
theorem main_blocks_on_done :
    (∀ s ∈ Orchestra.within 1 (Orchestra.start 1 0),
      Op.send Chan.done ∈ s.main ∧ Op.aggregate ∈ s.main) ∧
    (∀ s ∈ Orchestra.within 1 (Orchestra.start 1 0),
      ∀ s' ∈ s.next, s' ∈ Orchestra.within 1 (Orchestra.start 1 0)) ∧
    (∀ s ∈ Orchestra.within 1 (Orchestra.start 1 0), s.next = [] →
      s = { main := [Op.send Chan.done, Op.aggregate], clients := [[]], wg := 0,
            panicked := false }) := by
  decide

/-- The run with one publisher and one subscriber. The states within three
steps of the start are all the states the run can reach; in each of them
`main` has its send on `done` and the call of `calculateTotalResults` still
before it; and every run ends in the panic of the subscriber's `wg.Done()`,
the counter of the wait group never having been raised. -/
theorem subscriber_panics_on_return :
    (∀ s ∈ Orchestra.within 3 (Orchestra.start 1 1),
      Op.send Chan.done ∈ s.main ∧ Op.aggregate ∈ s.main) ∧
    (∀ s ∈ Orchestra.within 3 (Orchestra.start 1 1),
      ∀ s' ∈ s.next, s' ∈ Orchestra.within 3 (Orchestra.start 1 1)) ∧
    (∀ s ∈ Orchestra.within 3 (Orchestra.start 1 1), s.next = [] → s.panicked = true) := by
  decide
end MqttBench
